import Mathlib

/-!
The synest-sfu server: the room signaling engine, the coordinator and the ingress loop.

A shallow embedding of `types/room.go`, `types/peer.go`, `types/coordinator.go`,
`types/websocket.go` and `server.go`.

Conventions of the embedding.

* A Go `map[string]V` is an association list `List (String × V)`; ranging over the map
  visits the entries in list order.  Theorems quantify over every list, hence over every
  iteration order.
* A call runs to completion on its own goroutine.  Its result is an `Outcome`: it returned,
  it is parked for ever on a mutex that is never released, or it panicked.  Each outcome
  carries the state the call left behind.
* `sync.RWMutex` is not re-entrant: `Lock` on a held lock parks the caller.  The room lock
  is the field `Room.lock`.  The per-peer mutex and the writer mutex are always released
  by the call that took them and are never taken twice by one goroutine; they are left out.
* Calls into the libraries (pion/webrtc, gorilla/websocket, encoding/json) that can fail
  take their verdict from `Env.oracle`, one entry per call, `true` meaning "returned an
  error"; an exhausted oracle means success.
* `Env.effects` records what a call did to the outside world, oldest first.
-/

namespace SynestSfu

/-! ## Outcomes, environment -/

/-- Result of a call: the state it left and, when it returned, its value. -/
inductive Outcome (σ α : Type) where
  | returned (s : σ) (a : α)
  | blocked (s : σ)
  | panicked (s : σ)
  deriving DecidableEq, Repr

/-- State left behind by a call, whatever its outcome. -/
def Outcome.state {σ α : Type} : Outcome σ α → σ
  | .returned s _ => s
  | .blocked s => s
  | .panicked s => s

/-- Effects on the outside world. -/
inductive Effect where
  /-- An `offer` frame written with `WriteJSON` on a control connection. -/
  | offer (conn : Nat)
  /-- A `PictureLossIndication` with this media SSRC written with `WriteRTCP` on this
  peer's transport. -/
  | pli (peer : String) (mediaSSRC : Nat)
  /-- The goroutine of line 162: sleep `seconds` seconds, then `room.Signal()`. -/
  | signalAfter (room : String) (seconds : Nat)
  /-- The goroutine of `newRoom`: `room.dispatchKeyFrame()` every `seconds` seconds. -/
  | keyFrameTicker (room : String) (seconds : Nat)
  /-- The call `peerConnection.Close()` on this peer's transport. -/
  | closeTransport (peer : String)
  /-- The call `c.Close()` on a control connection. -/
  | closeConn (conn : Nat)
  deriving DecidableEq, Repr

/-- Verdicts of the library calls still to come, and the effects so far. -/
structure Env where
  oracle : List Bool
  effects : List Effect
  deriving DecidableEq, Repr

/-- One fallible library call: its verdict (`true` = error) and the remaining oracle. -/
def Env.call (env : Env) : Bool × Env :=
  match env.oracle with
  | [] => (false, env)
  | b :: rest => (b, { env with oracle := rest })

/-- Record an effect. -/
def Env.emit (env : Env) (e : Effect) : Env :=
  { env with effects := env.effects ++ [e] }

/-! ## Go maps -/

/-- Lookup `m[k]` with the comma-ok result. -/
def mapGet {α : Type} (m : List (String × α)) (k : String) : Option α :=
  match m with
  | [] => none
  | (k', v) :: rest => if k' = k then some v else mapGet rest k

/-- Assignment `m[k] = v`: overwrite the entry of `k`, or add one. -/
def mapSet {α : Type} (m : List (String × α)) (k : String) (v : α) : List (String × α) :=
  match m with
  | [] => [(k, v)]
  | (k', v') :: rest => if k' = k then (k, v) :: rest else (k', v') :: mapSet rest k v

/-- Builtin `delete(m, k)`. -/
def mapDelete {α : Type} (m : List (String × α)) (k : String) : List (String × α) :=
  m.filter (fun e => !decide (e.1 = k))

/-! ## The media transport -/

/-- States of `webrtc.PeerConnectionState`. -/
inductive PeerConnectionState where
  | unknown | new | connecting | connected | disconnected | failed | closed
  deriving DecidableEq, Repr

/-- A `*webrtc.TrackLocalStaticRTP`, as made by `NewTrackLocalStaticRTP(codec, id, streamID)`. -/
structure TrackLocalStaticRTP where
  id : String
  streamID : String
  deriving DecidableEq, Repr

/-- A `*webrtc.TrackRemote`. -/
structure TrackRemote where
  id : String
  streamID : String
  ssrc : Nat
  deriving DecidableEq, Repr

/-- Modelled from the spec: the media transport `*webrtc.PeerConnection` is a library
object (spec §1, §3 "transport").  Of its capability set the engine uses `current-state`,
`enumerate-senders`, `enumerate-receivers`, `add-track`, `remove-track`, `close`.
`senders` lists what `GetSenders()` returns, each sender with its `Track()` (`none` for
`nil`); `receivers` likewise for `GetReceivers()`.  A sender is known by the track it is
bound to. -/
structure PeerConnection where
  connectionState : PeerConnectionState
  senders : List (Option TrackLocalStaticRTP)
  receivers : List (Option TrackRemote)
  deriving DecidableEq, Repr

/-- Modelled from the spec: `add-track` on success leaves the transport with one more
sender, bound to the track. -/
def PeerConnection.AddTrack (pc : PeerConnection) (track : TrackLocalStaticRTP) : PeerConnection :=
  { pc with senders := pc.senders ++ [some track] }

/-- Modelled from the spec: `webrtc.NewPeerConnection` followed by the two
`AddTransceiverFromKind(_, Recvonly)` calls: "exactly two receive-only transceivers
(audio + video)", no sender, no remote track yet. -/
def NewPeerConnection : PeerConnection :=
  { connectionState := .new, senders := [], receivers := [none, none] }

/-- Ids of the tracks bound to senders (`sender.Track() != nil`). -/
def senderTrackIDs (senders : List (Option TrackLocalStaticRTP)) : List String :=
  senders.filterMap (fun s => s.map (fun t => t.id))

/-- Ids of the tracks on receivers (`receiver.Track() != nil`). -/
def receiverTrackIDs (receivers : List (Option TrackRemote)) : List String :=
  receivers.filterMap (fun r => r.map (fun t => t.id))

/-! ## peer.go -/

/-- The `Peer` struct; `websocket` and `peerConnection` are pointers, `none` is `nil`. -/
structure Peer where
  id : String
  websocket : Option Nat
  peerConnection : Option PeerConnection
  deriving DecidableEq, Repr

/-- Function `newPeer`. -/
def newPeer (id : String) : Peer :=
  { id := id, websocket := none, peerConnection := none }

/-- Method `Peer.CreateOffer`: `CreateOffer(nil)` then `SetLocalDescription(offer)`;
the result is `true` when one of them failed. -/
def CreateOffer (env : Env) : Bool × Env :=
  let r1 := env.call
  if r1.1 then (true, r1.2)
  else
    let r2 := r1.2.call
    (r2.1, r2.2)

/-! ## room.go -/

/-- The `Room` struct. -/
structure Room where
  id : String
  peers : List (String × Peer)
  tracks : List (String × TrackLocalStaticRTP)
  lock : Bool
  deriving DecidableEq, Repr

/-- How `Signal` left its loop: by `break` after a pass without retry, or by `return` at
the cap after scheduling a later `Signal`. -/
inductive SignalExit where
  | converged
  | deferred
  deriving DecidableEq, Repr

/-- Function `newRoom`: empty maps, free lock, and the keyframe ticker goroutine. -/
def newRoom (id : String) (env : Env) : Room × Env :=
  ({ id := id, peers := [], tracks := [], lock := false }, env.emit (.keyFrameTicker id 3))

/-- Method `Room.AddPeer`. -/
def AddPeer (room : Room) (peer : Peer) : Outcome Room Unit :=
  if room.lock then .blocked room
  else .returned { room with peers := mapSet room.peers peer.id peer } ()

/-- Method `Room.SendOffer`: `json.Marshal(offer)`, then `WriteJSON` on the peer's writer.
The value is `true` when an error is returned. -/
def SendOffer (peer : Peer) (env : Env) : Outcome Env Bool :=
  let r1 := env.call
  if r1.1 then .returned r1.2 true
  else
    match peer.websocket with
    | none => .panicked r1.2
    | some conn =>
      let r2 := r1.2.call
      if r2.1 then .returned r2.2 true
      else .returned (r2.2.emit (.offer conn)) false

/-- Lines 111-124 of `Signal`: the loop over `GetSenders()`.  `existingSenders` is the map
built along the way.  The value is `true` when `RemoveTrack` returned an error.  Modelled
from the spec: a successful `remove-track` "remove[s] the sender from the peer's
transport" (§4.E step 3), so the sender is no longer among the senders. -/
def syncSenders (tracks : List (String × TrackLocalStaticRTP)) :
    List (Option TrackLocalStaticRTP) → List String → Env →
      List (Option TrackLocalStaticRTP) × List String × Env × Bool
  | [], existingSenders, env => ([], existingSenders, env, false)
  | none :: rest, existingSenders, env =>
    let r := syncSenders tracks rest existingSenders env
    (none :: r.1, r.2)
  | some t :: rest, existingSenders, env =>
    if (mapGet tracks t.id).isSome then
      let r := syncSenders tracks rest (t.id :: existingSenders) env
      (some t :: r.1, r.2)
    else
      let c := env.call
      if c.1 then (some t :: rest, t.id :: existingSenders, c.2, true)
      else syncSenders tracks rest (t.id :: existingSenders) c.2

/-- Lines 127-133 of `Signal`: the loop over `GetReceivers()`. -/
def syncReceivers : List (Option TrackRemote) → List String → List String
  | [], existingSenders => existingSenders
  | none :: rest, existingSenders => syncReceivers rest existingSenders
  | some t :: rest, existingSenders => syncReceivers rest (t.id :: existingSenders)

/-- Lines 136-142 of `Signal`: the loop over `room.tracks`; `room.tracks[trackID]` is the
value stored with the key under iteration.  The value is `true` when `AddTrack` returned
an error. -/
def syncTracks (existingSenders : List String) :
    List (String × TrackLocalStaticRTP) → PeerConnection → Env → PeerConnection × Env × Bool
  | [], pc, env => (pc, env, false)
  | (trackID, track) :: rest, pc, env =>
    if trackID ∈ existingSenders then syncTracks existingSenders rest pc env
    else
      let c := env.call
      if c.1 then (pc, c.2, true)
      else syncTracks existingSenders rest (pc.AddTrack track) c.2

/-- Lines 108-152 of `Signal`: the body of the loop over `room.peers` for one peer whose
transport `pc` is not closed.  The value is `true` for `return true`. -/
def syncPeer (room : Room) (peer : Peer) (pc : PeerConnection) (env : Env) :
    Outcome (PeerConnection × Env) Bool :=
  let s := syncSenders room.tracks pc.senders [] env
  if s.2.2.2 then .returned ({ pc with senders := s.1 }, s.2.2.1) true
  else
    let existingSenders := syncReceivers pc.receivers s.2.1
    let a := syncTracks existingSenders room.tracks { pc with senders := s.1 } s.2.2.1
    if a.2.2 then .returned (a.1, a.2.1) true
    else
      let o := CreateOffer a.2.1
      if o.1 then .returned (a.1, o.2) true
      else
        match SendOffer peer o.2 with
        | .returned env' err => .returned (a.1, env') err
        | .blocked env' => .blocked (a.1, env')
        | .panicked env' => .panicked (a.1, env')

/-- Method `Room.RemovePeer`, with the `Signal` of its deferred function as a parameter. -/
def RemovePeerWith (signal : Room → Env → Outcome (Room × Env) SignalExit)
    (room : Room) (id : String) (env : Env) : Outcome (Room × Env) Unit :=
  if room.lock then .blocked (room, env)
  else
    match mapGet room.peers id with
    | some peer =>
      match peer.peerConnection with
      | none =>
        -- `Close` on a nil transport panics with the lock held; the deferred function runs
        .panicked (signal { room with lock := false } env).state
      | some _ =>
        let room1 := { room with peers := mapDelete room.peers id, lock := false }
        match signal room1 (env.emit (.closeTransport peer.id)) with
        | .returned s _ => .returned s ()
        | .blocked s => .blocked s
        | .panicked s => .panicked s
    | none =>
      match signal { room with lock := false } env with
      | .returned s _ => .returned s ()
      | .blocked s => .blocked s
      | .panicked s => .panicked s

/-- The closure `attemptSync` of `Signal` (lines 101-157), run by a goroutine that holds
the room lock (`room.lock = true`).  `visited` are the entries of `room.peers` already
ranged over, `todo` those still to come. -/
def attemptSyncLoop (signal : Room → Env → Outcome (Room × Env) SignalExit) (room : Room) :
    List (String × Peer) → List (String × Peer) → Env → Outcome (Room × Env) Bool
  | visited, [], env => .returned ({ room with peers := visited }, env) false
  | visited, (key, peer) :: rest, env =>
    match peer.peerConnection with
    | none => .panicked ({ room with peers := visited ++ (key, peer) :: rest }, env)
    | some pc =>
      if pc.connectionState = .closed then
        match RemovePeerWith signal { room with peers := visited ++ (key, peer) :: rest }
            peer.id env with
        | .returned s _ => .returned s true
        | .blocked s => .blocked s
        | .panicked s => .panicked s
      else
        match syncPeer room peer pc env with
        | .returned (pc', env') tryAgain =>
          let peer' := { peer with peerConnection := some pc' }
          if tryAgain then
            .returned ({ room with peers := visited ++ (key, peer') :: rest }, env') true
          else attemptSyncLoop signal room (visited ++ [(key, peer')]) rest env'
        | .blocked (pc', env') =>
          .blocked ({ room with peers :=
            visited ++ (key, { peer with peerConnection := some pc' }) :: rest }, env')
        | .panicked (pc', env') =>
          .panicked ({ room with peers :=
            visited ++ (key, { peer with peerConnection := some pc' }) :: rest }, env')

/-- One call of the closure `attemptSync`. -/
def attemptSyncWith (signal : Room → Env → Outcome (Room × Env) SignalExit)
    (room : Room) (env : Env) : Outcome (Room × Env) Bool :=
  attemptSyncLoop signal room [] room.peers env

/-- The loop over one peer's receivers in `dispatchKeyFrame`; write errors are dropped. -/
def keyFrameReceivers (peer : String) : List (Option TrackRemote) → Env → Env
  | [], env => env
  | none :: rest, env => keyFrameReceivers peer rest env
  | some t :: rest, env => keyFrameReceivers peer rest (env.emit (.pli peer t.ssrc))

/-- The loop over `room.peers` in `dispatchKeyFrame`; `true` when it panicked on a nil
transport. -/
def keyFramePeers : List (String × Peer) → Env → Env × Bool
  | [], env => (env, false)
  | (_, peer) :: rest, env =>
    match peer.peerConnection with
    | none => (env, true)
    | some pc => keyFramePeers rest (keyFrameReceivers peer.id pc.receivers env)

/-- Method `Room.dispatchKeyFrame`; the lock is released by the deferred `Unlock`. -/
def dispatchKeyFrame (room : Room) (env : Env) : Outcome (Room × Env) Unit :=
  if room.lock then .blocked (room, env)
  else
    let r := keyFramePeers room.peers env
    if r.2 then .panicked (room, r.1) else .returned (room, r.1) ()

/-- The `for syncAttempt := 0; ; syncAttempt++` loop of `Signal` (lines 159-172), for any
pass `attemptSync`.  `signalLoop attemptSync k` is the loop at `syncAttempt = 25 - k`; it is
entered with `k = 25`. -/
def signalLoop (attemptSync : Room → Env → Outcome (Room × Env) Bool) :
    Nat → Room → Env → Outcome (Room × Env) SignalExit
  | 0, room, env => .returned (room, env.emit (.signalAfter room.id 3)) .deferred
  | k + 1, room, env =>
    match attemptSync room env with
    | .returned (room', env') tryAgain =>
      if tryAgain then signalLoop attemptSync k room' env'
      else .returned (room', env') .converged
    | .blocked s => .blocked s
    | .panicked s => .panicked s

/-- Method `Room.Signal` for any pass `attemptSync`: `Lock`, the loop, and the deferred
function (`Unlock`, then `dispatchKeyFrame`), which also runs when the loop panicked. -/
def SignalBody (attemptSync : Room → Env → Outcome (Room × Env) Bool)
    (room : Room) (env : Env) : Outcome (Room × Env) SignalExit :=
  if room.lock then .blocked (room, env)
  else
    match signalLoop attemptSync 25 { room with lock := true } env with
    | .returned (room', env') exit =>
      match dispatchKeyFrame { room' with lock := false } env' with
      | .returned s _ => .returned s exit
      | .blocked s => .blocked s
      | .panicked s => .panicked s
    | .blocked s => .blocked s
    | .panicked (room', env') =>
      .panicked (dispatchKeyFrame { room' with lock := false } env').state

/-- Method `Room.Signal`.  The source is recursive: `Signal` runs `attemptSync`, which calls
`RemovePeer`, whose deferred function calls `Signal`.  That inner `Signal` stands behind
`RemovePeer`'s `Lock`; `Signal_unfold` shows this definition satisfies the recursive
equation of the source. -/
def Signal (room : Room) (env : Env) : Outcome (Room × Env) SignalExit :=
  SignalBody (attemptSyncWith (fun r e => .blocked (r, e))) room env

/-- Method `Room.RemovePeer`. -/
def RemovePeer (room : Room) (id : String) (env : Env) : Outcome (Room × Env) Unit :=
  RemovePeerWith Signal room id env

/-- The closure `attemptSync` of `Signal`. -/
def attemptSync (room : Room) (env : Env) : Outcome (Room × Env) Bool :=
  attemptSyncWith Signal room env

/-- Method `Room.AddTrack`. -/
def AddTrack (room : Room) (t : TrackRemote) (env : Env) :
    Outcome (Room × Env) TrackLocalStaticRTP :=
  if room.lock then .blocked (room, env)
  else
    let c := env.call
    if c.1 then .panicked (Signal room c.2).state
    else
      let trackLocal : TrackLocalStaticRTP := { id := t.id, streamID := t.streamID }
      match Signal { room with tracks := mapSet room.tracks t.id trackLocal } c.2 with
      | .returned s _ => .returned s trackLocal
      | .blocked s => .blocked s
      | .panicked s => .panicked s

/-- Method `Room.RemoveTrack`. -/
def RemoveTrack (room : Room) (track : TrackLocalStaticRTP) (env : Env) :
    Outcome (Room × Env) Unit :=
  if room.lock then .blocked (room, env)
  else
    match Signal { room with tracks := mapDelete room.tracks track.id } env with
    | .returned s _ => .returned s ()
    | .blocked s => .blocked s
    | .panicked s => .panicked s

/-! ## websocket.go -/

mutual
/-- A Go `any` as `encoding/json` fills it: `nil`, `bool`, `float64` (the numeral),
`string`, `[]any`, `map[string]any`. -/
inductive Any where
  | nil
  | bool (b : Bool)
  | float64 (n : Int)
  | string (s : String)
  | slice (xs : AnyList)
  | map (m : AnyMap)
  deriving DecidableEq, Repr
/-- Elements of a `[]any`. -/
inductive AnyList where
  | nil
  | cons (head : Any) (tail : AnyList)
  deriving DecidableEq, Repr
/-- Entries of a `map[string]any`. -/
inductive AnyMap where
  | nil
  | cons (key : String) (value : Any) (tail : AnyMap)
  deriving DecidableEq, Repr
end

/-- Index expression `data[k]` on a `map[string]any`: the nil interface when `k` is absent. -/
def AnyMap.index : AnyMap → String → Any
  | .nil, _ => .nil
  | .cons key value tail, k => if key = k then value else tail.index k

/-- The `WsMessage` struct (fields `Type` and `Data`, JSON names `type` and `data`). -/
structure WsMessage where
  type : String
  data : Any
  deriving DecidableEq, Repr

/-- The zero value `WsMessage{}`. -/
def WsMessage.zero : WsMessage := { type := "", data := .nil }

/-! ## coordinator.go -/

/-- The `Coordinator` struct. -/
structure Coordinator where
  rooms : List (String × Room)
  deriving DecidableEq, Repr

/-- Function `NewCoordinator`. -/
def NewCoordinator : Coordinator := { rooms := [] }

/-- Method `Coordinator.CreateRoom`. -/
def CreateRoom (c : Coordinator) (id : String) (env : Env) : Coordinator × Env :=
  let r := newRoom id env
  ({ rooms := mapSet c.rooms id r.1 }, r.2)

/-- Method `Coordinator.RemoveRoom`. -/
def RemoveRoom (c : Coordinator) (id : String) : Coordinator :=
  { rooms := mapDelete c.rooms id }

/-- A write through the pointer `coordinator.rooms[id]`. -/
def setRoom (c : Coordinator) (id : String) (room : Room) : Coordinator :=
  { rooms := mapSet c.rooms id room }

/-- Lines 41-136 of `AddUserToRoom`: the block
`if room, ok := coordinator.rooms[id]; ok { ... }`. -/
def addUserToExistingRoom (c : Coordinator) (id peerId : String) (conn : Nat) (env : Env) :
    Outcome (Coordinator × Env) Unit :=
  match mapGet c.rooms id with
  | none => .returned (c, env) ()
  | some room =>
    match AddPeer room (newPeer peerId) with
    | .blocked _ => .blocked (c, env)
    | .panicked _ => .panicked (c, env)
    | .returned room1 _ =>
      match mapGet room1.peers peerId with
      | none => .returned (setRoom c id room1, env) ()
      | some peer =>
        let peer1 := { peer with websocket := some conn }
        let room2 := { room1 with peers := mapSet room1.peers peerId peer1 }
        -- webrtc.NewPeerConnection
        let c1 := env.call
        if c1.1 then .returned (setRoom c id room2, c1.2) ()
        else
          -- AddTransceiverFromKind(video), AddTransceiverFromKind(audio)
          let c2 := c1.2.call
          if c2.1 then .returned (setRoom c id room2, c2.2) ()
          else
            let c3 := c2.2.call
            if c3.1 then .returned (setRoom c id room2, c3.2) ()
            else
              let peer2 := { peer1 with peerConnection := some NewPeerConnection }
              let room3 := { room2 with peers := mapSet room2.peers peerId peer2 }
              match Signal room3 c3.2 with
              | .returned (room4, env') _ => .returned (setRoom c id room4, env') ()
              | .blocked (room4, env') => .blocked (setRoom c id room4, env')
              | .panicked (room4, env') => .panicked (setRoom c id room4, env')

/-- Method `Coordinator.AddUserToRoom`: create the room when it is missing (lines 36-39),
then the block of lines 41-136. -/
def AddUserToRoom (c : Coordinator) (id peerId : String) (conn : Nat) (env : Env) :
    Outcome (Coordinator × Env) Unit :=
  if (mapGet c.rooms id).isSome then addUserToExistingRoom c id peerId conn env
  else addUserToExistingRoom (CreateRoom c id env).1 id peerId conn (CreateRoom c id env).2

/-- Method `Coordinator.RemoveUserFromRoom`. -/
def RemoveUserFromRoom (c : Coordinator) (id peerId : String) : Coordinator :=
  match mapGet c.rooms id with
  | some room =>
    let room1 :=
      if (mapGet room.peers peerId).isSome then
        { room with peers := mapDelete room.peers peerId }
      else room
    if room1.peers.length ≤ 0 then RemoveRoom c id else setRoom c id room1
  | none => c

/-- The `candidate` and `answer` cases of `HandleEvent` after `payload = data[field]`:
the type assertion to string, `json.Unmarshal` of the inner text, then the peer's
`ReactOnCandidate` / `ReactOnAnswer`, which dereference the transport. -/
def reactOn (c : Coordinator) (roomId peerId : String) (payload : Any) (env : Env) :
    Outcome (Coordinator × Env) Unit :=
  match payload with
  | .string _ =>
    let u := env.call
    if u.1 then .returned (c, u.2) ()
    else
      match mapGet c.rooms roomId with
      | some room =>
        match mapGet room.peers peerId with
        | some peer =>
          match peer.peerConnection with
          | none => .panicked (c, u.2)
          | some _ => .returned (c, u.2.call.2) ()
        | none => .returned (c, u.2) ()
      | none => .returned (c, u.2) ()
  | _ => .panicked (c, env)

/-- Method `Coordinator.HandleEvent`.  A failed type assertion `x.(string)` panics. -/
def HandleEvent (c : Coordinator) (message : WsMessage) (conn : Nat) (env : Env) :
    Outcome (Coordinator × Env) Unit :=
  match message.data with
  | .map data =>
    match data.index "peerId" with
    | .string peerId =>
      match data.index "roomId" with
      | .string roomId =>
        if message.type = "join" then AddUserToRoom c roomId peerId conn env
        else if message.type = "leave" then .returned (RemoveUserFromRoom c roomId peerId, env) ()
        else if message.type = "candidate" then reactOn c roomId peerId (data.index "candidate") env
        else if message.type = "answer" then reactOn c roomId peerId (data.index "answer") env
        else .returned (c, env) ()
      | _ => .panicked (c, env)
    | _ => .panicked (c, env)
  | _ => .returned (c, env) ()

/-! ## server.go -/

/-- What one `ReadMessage` delivers: an error, or a frame.  A frame is bytes that are not
JSON, or a JSON text: an object with its members in textual order (values as
`encoding/json` stores them in an `any`), `null`, or any other JSON value. -/
inductive Incoming where
  | readError
  | notJSON
  | object (members : List (String × Any))
  | null
  | other
  deriving DecidableEq, Repr

/-- Field lookup of `encoding/json`: a key selects the field whose JSON name it equals,
exactly or up to letter case. -/
def keyMatches (key name : String) : Bool :=
  decide (key = name) || decide (key.data.map Char.toLower = name.data)

/-- One member of a JSON object decoded into a `*WsMessage`; `none` is an
`UnmarshalTypeError`.  JSON `null` leaves a string field alone and sets an `any` to nil. -/
def unmarshalMember (message : WsMessage) (key : String) (value : Any) : Option WsMessage :=
  if keyMatches key "type" then
    match value with
    | .string s => some { message with type := s }
    | .nil => some message
    | _ => none
  else if keyMatches key "data" then some { message with data := value }
  else some message

/-- The members of a JSON object decoded one after the other into a `*WsMessage`. -/
def unmarshalMembers : List (String × Any) → WsMessage → Option WsMessage
  | [], message => some message
  | (key, value) :: rest, message =>
    match unmarshalMember message key value with
    | some message' => unmarshalMembers rest message'
    | none => none

/-- The call `json.Unmarshal(raw, message)`: decoding writes the fields the frame names
and leaves the other fields of `*message` as they are; `none` is an error. -/
def Unmarshal (raw : Incoming) (message : WsMessage) : Option WsMessage :=
  match raw with
  | .readError => none
  | .notJSON => none
  | .other => none
  | .null => some message
  | .object members => unmarshalMembers members message

/-- Where a run of `websocketHandler` stands. -/
inductive Session where
  /-- Waiting in `ReadMessage`; `message` is the content of the variable `message`. -/
  | reading (message : WsMessage)
  /-- Parked inside `HandleEvent`. -/
  | stuck
  /-- Returned after a read or decode error; the deferred `c.Close()` ran. -/
  | closed
  /-- Unwound by a panic out of `HandleEvent`; the deferred `c.Close()` ran. -/
  | closedByPanic
  deriving DecidableEq, Repr

/-- State of a run of `websocketHandler`; `handled` lists the messages passed to
`HandleEvent`, oldest first. -/
structure Served where
  coordinator : Coordinator
  env : Env
  handled : List WsMessage
  session : Session
  deriving DecidableEq, Repr

/-- The `for` loop of `websocketHandler` (lines 54-67) on connection `conn`, fed the
results of its successive `ReadMessage` calls. -/
def websocketLoop (conn : Nat) :
    List Incoming → WsMessage → Coordinator → Env → List WsMessage → Served
  | [], message, c, env, handled =>
    { coordinator := c, env := env, handled := handled, session := .reading message }
  | .readError :: _, _, c, env, handled =>
    { coordinator := c, env := env.emit (.closeConn conn), handled := handled,
      session := .closed }
  | raw :: rest, message, c, env, handled =>
    match Unmarshal raw message with
    | none =>
      { coordinator := c, env := env.emit (.closeConn conn), handled := handled,
        session := .closed }
    | some message' =>
      match HandleEvent c message' conn env with
      | .returned s _ => websocketLoop conn rest message' s.1 s.2 (handled ++ [message'])
      | .blocked s =>
        { coordinator := s.1, env := s.2, handled := handled ++ [message'], session := .stuck }
      | .panicked s =>
        { coordinator := s.1, env := s.2.emit (.closeConn conn),
          handled := handled ++ [message'], session := .closedByPanic }

/-- Function `websocketHandler` after a successful upgrade: `message := &WsMessage{}` is
made once, before the loop. -/
def websocketHandler (c : Coordinator) (conn : Nat) (frames : List Incoming) (env : Env) :
    Served :=
  websocketLoop conn frames WsMessage.zero c env []

/-! ## The forwarder (the `OnTrack` callback of `AddUserToRoom`) -/

/-- One header extension of `rtp.Header`. -/
structure Extension where
  id : Nat
  payload : List Nat
  deriving DecidableEq, Repr

/-- The `rtp.Header` struct. -/
structure Header where
  version : Nat
  padding : Bool
  extension : Bool
  marker : Bool
  payloadType : Nat
  sequenceNumber : Nat
  timestamp : Nat
  ssrc : Nat
  csrc : List Nat
  extensionProfile : Nat
  extensions : List Extension
  deriving DecidableEq, Repr

/-- The `rtp.Packet` struct. -/
structure Packet where
  header : Header
  payload : List Nat
  paddingSize : Nat
  deriving DecidableEq, Repr

/-- Result of `t.Read(buf)` followed by `rtpPkt.Unmarshal(buf[:i])`: the read failed, the
parse failed, or `rtpPkt` now holds the incoming packet. -/
inductive Arrival where
  | readError
  | parseError
  | packet (p : Packet)
  deriving DecidableEq, Repr

/-- Lines 121-122: `rtpPkt.Extension = false; rtpPkt.Extensions = nil`. -/
def clearExtensions (p : Packet) : Packet :=
  { p with header := { p.header with extension := false, extensions := [] } }

/-- The `for` loop of the `OnTrack` callback (lines 110-127).  The result lists the
arguments of the `WriteRTP` calls, in order. -/
def forwardLoop : List Arrival → Env → List Packet × Env
  | [], env => ([], env)
  | .readError :: _, env => ([], env)
  | .parseError :: _, env => ([], env)
  | .packet p :: rest, env =>
    let w := env.call
    if w.1 then ([clearExtensions p], w.2)
    else
      let r := forwardLoop rest w.2
      (clearExtensions p :: r.1, r.2)

/-! ## Vocabulary of the statements -/

/-- The registry stores every local track under the track's own id, as `Room.AddTrack`
does (`room.tracks[t.ID()] = trackLocal` with `trackLocal` made with id `t.ID()`); see
`Reachable_tracksWF`. -/
def tracksWF (tracks : List (String × TrackLocalStaticRTP)) : Prop :=
  ∀ e ∈ tracks, e.2.id = e.1

/-- Step 3 of the spec's pass: the senders of a peer that stay on its transport, those
without a track and those bound to a track whose id is in the registry. -/
def keptSenders (tracks : List (String × TrackLocalStaticRTP))
    (senders : List (Option TrackLocalStaticRTP)) : List (Option TrackLocalStaticRTP) :=
  senders.filter (fun s => match s with
    | none => true
    | some t => (mapGet tracks t.id).isSome)

/-- Step 5 of the spec's pass: the registry tracks whose id is not in `already_bound`,
the ids of the tracks bound to the peer's senders (step 2) and of the tracks on the peer's
own receivers (step 4), both taken at the start of the pass. -/
def tracksToAdd (tracks : List (String × TrackLocalStaticRTP)) (pc : PeerConnection) :
    List TrackLocalStaticRTP :=
  (tracks.filter (fun e => decide (e.1 ∉ senderTrackIDs pc.senders) &&
    decide (e.1 ∉ receiverTrackIDs pc.receivers))).map (fun e => e.2)

/-- The senders of a peer after steps 3 and 5 of the spec's pass. -/
def syncedSenders (tracks : List (String × TrackLocalStaticRTP)) (pc : PeerConnection) :
    List (Option TrackLocalStaticRTP) :=
  keptSenders tracks pc.senders ++ (tracksToAdd tracks pc).map some

/-- A peer after steps 2 to 6 of the spec's pass: only the senders of its transport
change. -/
def syncedPeer (tracks : List (String × TrackLocalStaticRTP)) (peer : Peer) : Peer :=
  { peer with peerConnection :=
      peer.peerConnection.map (fun pc => { pc with senders := syncedSenders tracks pc }) }


/-- State after `n` consecutive passes that all reported "try again"; `none` when one of
them did not. -/
def retries (pass : Room → Env → Outcome (Room × Env) Bool) :
    Nat → Room → Env → Option (Room × Env)
  | 0, room, env => some (room, env)
  | n + 1, room, env =>
    match pass room env with
    | .returned (room', env') true => retries pass n room' env'
    | _ => none

/-- The later `Signal` calls scheduled so far. -/
def scheduled (env : Env) : List Effect :=
  env.effects.filter (fun e => match e with
    | .signalAfter _ _ => true
    | _ => false)

/-- An entry of `room.peers` with the senders of its transport left out: the key, the peer
id, the control connection, and the state and receivers of the transport. -/
def withoutSenders (e : String × Peer) : String × Peer :=
  (e.1, { e.2 with peerConnection :=
            e.2.peerConnection.map (fun pc => { pc with senders := [] }) })

/-- Ids of the tracks bound to a peer's senders; none for a peer without transport. -/
def boundSenderIDs (peer : Peer) : List String :=
  match peer.peerConnection with
  | some pc => senderTrackIDs pc.senders
  | none => []

/-- Scenario 2 of the spec: three peers in one room, each sending one track, no sender yet;
the registry holds the three local tracks as `Room.AddTrack` makes them. -/
def threePeers (a b c : TrackRemote) : Room :=
  { id := "r1",
    peers :=
      [("a", ⟨"a", some 1, some ⟨.connected, [], [some a, none]⟩⟩),
       ("b", ⟨"b", some 2, some ⟨.connected, [], [some b, none]⟩⟩),
       ("c", ⟨"c", some 3, some ⟨.connected, [], [none, some c]⟩⟩)],
    tracks :=
      [(a.id, { id := a.id, streamID := a.streamID }),
       (b.id, { id := b.id, streamID := b.streamID }),
       (c.id, { id := c.id, streamID := c.streamID })],
    lock := true }

/-- The empty environment: every library call succeeds, nothing has happened yet. -/
def env0 : Env := { oracle := [], effects := [] }

/-- Three remote tracks with distinct ids. -/
def trackA : TrackRemote := { id := "ta", streamID := "sa", ssrc := 11 }

/-- Second remote track. -/
def trackB : TrackRemote := { id := "tb", streamID := "sb", ssrc := 22 }

/-- Third remote track. -/
def trackC : TrackRemote := { id := "tc", streamID := "sc", ssrc := 33 }

/-- The room of scenario 2 with the tracks `ta`, `tb`, `tc`, its lock free. -/
def threePeersFree : Room := { threePeers trackA trackB trackC with lock := false }

/-- A room, locked by a running `Signal`, whose only peer holds a sender for a track that
has left the registry (`tc`) and a sender for a track that is still there (`tb`). -/
def staleRoom : Room :=
  { id := "r1",
    peers := [("a", ⟨"a", some 1, some ⟨.connected,
      [some ⟨"tc", "sc"⟩, some ⟨"tb", "sb"⟩], [none, none]⟩⟩)],
    tracks := [("tb", ⟨"tb", "sb"⟩)],
    lock := true }

/-- The room `staleRoom` after one pass in which every library call succeeded. -/
def staleRoomSynced : Room :=
  { id := "r1",
    peers := [("a", ⟨"a", some 1, some ⟨.connected, [some ⟨"tb", "sb"⟩], [none, none]⟩⟩)],
    tracks := [("tb", ⟨"tb", "sb"⟩)],
    lock := true }

instance (tracks : List (String × TrackLocalStaticRTP)) : Decidable (tracksWF tracks) := by
  unfold tracksWF; infer_instance


/-- Coordinator states reachable from `NewCoordinator()`: by control events (any message
through `HandleEvent`: `join`, `leave`, `candidate`, `answer`, or anything else), by runs
of `Signal` on a room (whoever triggers them), by the forwarders' `AddTrack` and
`RemoveTrack`, by keyframe ticks, and by changes the network makes to a peer's transport.
A call that is parked or panics leaves the state it had reached. -/
inductive Reachable : Coordinator → Prop where
  | init : Reachable NewCoordinator
  | event (c : Coordinator) (message : WsMessage) (conn : Nat) (env : Env) :
      Reachable c → Reachable (HandleEvent c message conn env).state.1
  | signal (c : Coordinator) (id : String) (room : Room) (env : Env) :
      Reachable c → mapGet c.rooms id = some room →
      Reachable (setRoom c id (Signal room env).state.1)
  | addTrack (c : Coordinator) (id : String) (room : Room) (t : TrackRemote) (env : Env) :
      Reachable c → mapGet c.rooms id = some room →
      Reachable (setRoom c id (AddTrack room t env).state.1)
  | removeTrack (c : Coordinator) (id : String) (room : Room) (t : TrackLocalStaticRTP)
      (env : Env) :
      Reachable c → mapGet c.rooms id = some room →
      Reachable (setRoom c id (RemoveTrack room t env).state.1)
  | keyFrame (c : Coordinator) (id : String) (room : Room) (env : Env) :
      Reachable c → mapGet c.rooms id = some room →
      Reachable (setRoom c id (dispatchKeyFrame room env).state.1)
  | transport (c : Coordinator) (id : String) (room : Room) (peerId : String) (peer : Peer)
      (pc pc' : PeerConnection) :
      Reachable c → mapGet c.rooms id = some room → mapGet room.peers peerId = some peer →
      peer.peerConnection = some pc →
      Reachable (setRoom c id
        { room with peers := mapSet room.peers peerId { peer with peerConnection := some pc' } })

/-- The coordinator after `leave` events for the peers `ps` of room `id`, in this order. -/
def leaveAll (c : Coordinator) (id : String) (ps : List String) : Coordinator :=
  ps.foldl (fun c p => RemoveUserFromRoom c id p) c

/-- Ids of the peers present in room `id`; none when the room does not exist. -/
def peerIDs (c : Coordinator) (id : String) : List String :=
  match mapGet c.rooms id with
  | some room => room.peers.map Prod.fst
  | none => []

/-- The `data` object of a well-formed `join` or `leave`. -/
def memberData (peerId roomId : String) : Any :=
  .map (.cons "peerId" (.string peerId) (.cons "roomId" (.string roomId) .nil))

/-- The frame of a well-formed `join`. -/
def joinFrame (peerId roomId : String) : Incoming :=
  .object [("type", .string "join"), ("data", memberData peerId roomId)]

/-- The frame of scenario 6, a `join` whose `peerId` is the number 42 and whose `roomId`
is missing. -/
def malformedJoinFrame : Incoming :=
  .object [("type", .string "join"), ("data", .map (.cons "peerId" (.float64 42) .nil))]

/-- The frame that names a type and nothing else. -/
def bareLeaveFrame : Incoming :=
  .object [("type", .string "leave")]

/-- The coordinator after peers `a` and `b` joined room `r1` on connections 1 and 2. -/
def twoJoined : Coordinator :=
  (HandleEvent
    (HandleEvent NewCoordinator ⟨"join", memberData "a" "r1"⟩ 1 env0).state.1
    ⟨"join", memberData "b" "r1"⟩ 2 env0).state.1

/-- The coordinator of scenario 2 after convergence: room `r1` with peers `a`, `b`, `c`,
each sending one track and receiving the other two. -/
def threeJoined : Coordinator :=
  { rooms := [("r1", (Signal threePeersFree env0).state.1)] }

/-- The packets that arrive before the first read or parse error. -/
def leadingPackets : List Arrival → List Packet
  | .packet p :: rest => p :: leadingPackets rest
  | _ => []

/-- Number of `WriteRTP` calls up to and including the first that returns an error; `none`
when no call does. -/
def writesUntilError : List Bool → Option Nat
  | [] => none
  | true :: _ => some 1
  | false :: rest => (writesUntilError rest).map (fun n => n + 1)

/-! ## The signaling pass -/

theorem senderTrackIDs_none (rest : List (Option TrackLocalStaticRTP)) :
    senderTrackIDs (none :: rest) = senderTrackIDs rest := rfl

theorem senderTrackIDs_some (t : TrackLocalStaticRTP) (rest : List (Option TrackLocalStaticRTP)) :
    senderTrackIDs (some t :: rest) = t.id :: senderTrackIDs rest := rfl

theorem receiverTrackIDs_none (rest : List (Option TrackRemote)) :
    receiverTrackIDs (none :: rest) = receiverTrackIDs rest := rfl

theorem receiverTrackIDs_some (t : TrackRemote) (rest : List (Option TrackRemote)) :
    receiverTrackIDs (some t :: rest) = t.id :: receiverTrackIDs rest := rfl

theorem syncSenders_ok (tracks : List (String × TrackLocalStaticRTP)) :
    ∀ (senders : List (Option TrackLocalStaticRTP)) (ex : List String) (env : Env),
      (syncSenders tracks senders ex env).2.2.2 = false →
      (syncSenders tracks senders ex env).1 = keptSenders tracks senders ∧
      ∀ x, x ∈ (syncSenders tracks senders ex env).2.1 ↔ x ∈ senderTrackIDs senders ∨ x ∈ ex := by
  intro senders
  induction senders with
  | nil => intro ex env _; simp [syncSenders, keptSenders, senderTrackIDs]
  | cons s rest ih =>
    intro ex env h
    cases s with
    | none =>
      simp only [syncSenders] at h ⊢
      obtain ⟨h1, h2⟩ := ih ex env h
      refine ⟨?_, ?_⟩
      · rw [h1]; simp [keptSenders]
      · intro x; rw [h2 x, senderTrackIDs_none]
    | some t =>
      simp only [syncSenders] at h ⊢
      by_cases hk : (mapGet tracks t.id).isSome = true
      · simp only [hk, if_true] at h ⊢
        obtain ⟨h1, h2⟩ := ih (t.id :: ex) env h
        refine ⟨?_, ?_⟩
        · rw [h1]; simp [keptSenders, hk]
        · intro x; rw [h2 x, senderTrackIDs_some, List.mem_cons, List.mem_cons]; tauto
      · simp only [hk] at h ⊢
        cases hc : env.call.1 with
        | true => simp [hc] at h
        | false =>
          simp only [hc] at h ⊢
          simp only [Bool.false_eq_true, if_false] at h ⊢
          obtain ⟨h1, h2⟩ := ih (t.id :: ex) env.call.2 h
          refine ⟨?_, ?_⟩
          · rw [h1]; simp [keptSenders, hk]
          · intro x; rw [h2 x, senderTrackIDs_some, List.mem_cons, List.mem_cons]; tauto

theorem mem_syncReceivers :
    ∀ (receivers : List (Option TrackRemote)) (ex : List String) (x : String),
      x ∈ syncReceivers receivers ex ↔ x ∈ receiverTrackIDs receivers ∨ x ∈ ex := by
  intro receivers
  induction receivers with
  | nil => intro ex x; simp [syncReceivers, receiverTrackIDs]
  | cons r rest ih =>
    intro ex x
    cases r with
    | none => simp only [syncReceivers]; rw [ih, receiverTrackIDs_none]
    | some t =>
      simp only [syncReceivers]
      rw [ih, receiverTrackIDs_some, List.mem_cons, List.mem_cons]; tauto

theorem syncTracks_ok (ex : List String) :
    ∀ (todo : List (String × TrackLocalStaticRTP)) (pc : PeerConnection) (env : Env),
      (syncTracks ex todo pc env).2.2 = false →
      (syncTracks ex todo pc env).1 =
        { pc with senders := pc.senders ++
            ((todo.filter (fun e => decide (e.1 ∉ ex))).map (fun e => some e.2)) } := by
  intro todo
  induction todo with
  | nil => intro pc env _; simp [syncTracks]
  | cons e rest ih =>
    intro pc env h
    obtain ⟨trackID, track⟩ := e
    simp only [syncTracks] at h ⊢
    by_cases hm : trackID ∈ ex
    · simp only [hm, if_true] at h ⊢
      rw [ih pc env h]; simp [hm]
    · simp only [hm, if_false] at h ⊢
      cases hc : env.call.1 with
      | true => simp [hc] at h
      | false =>
        simp only [hc, Bool.false_eq_true, if_false] at h ⊢
        rw [ih _ _ h]; simp [hm, PeerConnection.AddTrack]

theorem syncPeer_ok (room : Room) (peer : Peer) (pc pc' : PeerConnection) (env env' : Env)
    (h : syncPeer room peer pc env = .returned (pc', env') false) :
    pc' = { pc with senders := syncedSenders room.tracks pc } := by
  unfold syncPeer at h
  cases hs : (syncSenders room.tracks pc.senders [] env).2.2.2 with
  | true => simp [hs] at h
  | false =>
    obtain ⟨hs1, hs2⟩ := syncSenders_ok room.tracks pc.senders [] env hs
    simp only [hs, Bool.false_eq_true, if_false] at h
    generalize hex : syncReceivers pc.receivers (syncSenders room.tracks pc.senders [] env).2.1
      = ex at h
    cases ha : (syncTracks ex room.tracks
        { pc with senders := (syncSenders room.tracks pc.senders [] env).1 }
        (syncSenders room.tracks pc.senders [] env).2.2.1).2.2 with
    | true => simp [ha] at h
    | false =>
      have ha1 := syncTracks_ok ex room.tracks _ _ ha
      simp only [ha, Bool.false_eq_true, if_false] at h
      have hpc : pc' = (syncTracks ex room.tracks
          { pc with senders := (syncSenders room.tracks pc.senders [] env).1 }
          (syncSenders room.tracks pc.senders [] env).2.2.1).1 := by
        split at h
        · simp at h
        · split at h
          · simp only [Outcome.returned.injEq, Prod.mk.injEq] at h; exact h.1.1.symm
          · simp at h
          · simp at h
      rw [hpc, ha1, hs1]
      simp only [syncedSenders, tracksToAdd, List.map_map]
      congr 2
      have hf : (fun e : String × TrackLocalStaticRTP => decide (e.1 ∉ ex)) =
          (fun e => decide (e.1 ∉ senderTrackIDs pc.senders) &&
            decide (e.1 ∉ receiverTrackIDs pc.receivers)) := by
        funext e
        have : e.1 ∈ ex ↔ e.1 ∈ receiverTrackIDs pc.receivers ∨ e.1 ∈ senderTrackIDs pc.senders := by
          rw [← hex, mem_syncReceivers, hs2]; simp
        by_cases h1 : e.1 ∈ senderTrackIDs pc.senders <;>
          by_cases h2 : e.1 ∈ receiverTrackIDs pc.receivers <;> simp [this, h1, h2]
      rw [hf]
      rfl

theorem RemovePeerWith_locked (signal : Room → Env → Outcome (Room × Env) SignalExit)
    (room : Room) (id : String) (env : Env) (h : room.lock = true) :
    RemovePeerWith signal room id env = .blocked (room, env) := by
  simp [RemovePeerWith, h]

theorem attemptSyncLoop_ok (signal : Room → Env → Outcome (Room × Env) SignalExit) (room : Room) :
    ∀ (todo visited : List (String × Peer)) (env : Env) (room' : Room) (env' : Env),
      attemptSyncLoop signal room visited todo env = .returned (room', env') false →
      room' = { room with peers :=
        visited ++ todo.map (fun e => (e.1, syncedPeer room.tracks e.2)) } ∧
      ∀ e ∈ todo, ∃ pc, e.2.peerConnection = some pc ∧ pc.connectionState ≠ .closed := by
  intro todo
  induction todo with
  | nil =>
    intro visited env room' env' h
    simp only [attemptSyncLoop, Outcome.returned.injEq, Prod.mk.injEq] at h
    simp [← h.1.1]
  | cons e rest ih =>
    intro visited env room' env' h
    obtain ⟨key, peer⟩ := e
    obtain ⟨pid, ws, opc⟩ := peer
    cases opc with
    | none => simp [attemptSyncLoop] at h
    | some pc =>
      simp only [attemptSyncLoop] at h
      by_cases hc : pc.connectionState = .closed
      · simp only [hc, if_true] at h
        split at h <;> simp at h
      · simp only [hc, if_false] at h
        cases hp : syncPeer room ⟨pid, ws, some pc⟩ pc env with
        | returned s tryAgain =>
          obtain ⟨pc', env1⟩ := s
          rw [hp] at h
          cases tryAgain with
          | true => simp at h
          | false =>
            simp only [Bool.false_eq_true, if_false] at h
            obtain ⟨h1, h2⟩ := ih _ _ _ _ h
            have hpc := syncPeer_ok room _ pc pc' env env1 hp
            refine ⟨?_, ?_⟩
            · rw [h1, hpc]; simp [syncedPeer]
            · intro e he
              rcases List.mem_cons.1 he with rfl | he
              · exact ⟨pc, rfl, hc⟩
              · exact h2 e he
        | blocked s => rw [hp] at h; simp at h
        | panicked s => rw [hp] at h; simp at h

theorem attemptSyncLoop_locked (signal : Room → Env → Outcome (Room × Env) SignalExit)
    (room : Room) (hl : room.lock = true) :
    ∀ (todo visited : List (String × Peer)) (env : Env),
      ∃ ps, (attemptSyncLoop signal room visited todo env).state.1 = { room with peers := ps } ∧
        ps.map Prod.fst = (visited ++ todo).map Prod.fst := by
  intro todo
  induction todo with
  | nil => intro visited env; exact ⟨visited, by simp [attemptSyncLoop, Outcome.state]⟩
  | cons e rest ih =>
    intro visited env
    obtain ⟨key, peer⟩ := e
    obtain ⟨pid, ws, opc⟩ := peer
    cases opc with
    | none => exact ⟨_, rfl, rfl⟩
    | some pc =>
      simp only [attemptSyncLoop]
      by_cases hc : pc.connectionState = .closed
      · simp only [hc, if_true]
        simp only [RemovePeerWith, hl, if_true]
        exact ⟨_, rfl, rfl⟩
      · simp only [hc, if_false]
        cases hp : syncPeer room ⟨pid, ws, some pc⟩ pc env with
        | returned s tryAgain =>
          obtain ⟨pc', env1⟩ := s
          cases tryAgain with
          | true => exact ⟨_, rfl, by simp⟩
          | false =>
            simp only [Bool.false_eq_true, if_false]
            obtain ⟨ps, h1, h2⟩ := ih (visited ++ [(key, ⟨pid, ws, some pc'⟩)]) env1
            exact ⟨ps, h1, by rw [h2]; simp⟩
        | blocked s => exact ⟨_, rfl, by simp⟩
        | panicked s => exact ⟨_, rfl, by simp⟩

theorem attemptSyncLoop_congr (s1 s2 : Room → Env → Outcome (Room × Env) SignalExit)
    (room : Room) (hl : room.lock = true) :
    ∀ (todo visited : List (String × Peer)) (env : Env),
      attemptSyncLoop s1 room visited todo env = attemptSyncLoop s2 room visited todo env := by
  intro todo
  induction todo with
  | nil => intro visited env; simp [attemptSyncLoop]
  | cons e rest ih =>
    intro visited env
    obtain ⟨key, peer⟩ := e
    obtain ⟨pid, ws, opc⟩ := peer
    cases opc with
    | none => simp [attemptSyncLoop]
    | some pc =>
      simp only [attemptSyncLoop]
      by_cases hc : pc.connectionState = .closed
      · simp only [hc, if_true]
        simp only [RemovePeerWith, hl, if_true]
      · simp only [hc, if_false]
        cases hp : syncPeer room ⟨pid, ws, some pc⟩ pc env with
        | returned s tryAgain =>
          obtain ⟨pc', env1⟩ := s
          cases tryAgain with
          | true => rfl
          | false => simp only [Bool.false_eq_true, if_false]; exact ih _ _
        | blocked s => rfl
        | panicked s => rfl

/-- What a pass keeps while the room lock is held. -/
theorem attemptSyncWith_locked (signal : Room → Env → Outcome (Room × Env) SignalExit)
    (room : Room) (env : Env) (hl : room.lock = true) :
    ∃ ps, (attemptSyncWith signal room env).state.1 = { room with peers := ps } ∧
      ps.map Prod.fst = room.peers.map Prod.fst := by
  obtain ⟨ps, h1, h2⟩ := attemptSyncLoop_locked signal room hl room.peers [] env
  exact ⟨ps, h1, by simpa using h2⟩

theorem signalLoop_congr (p1 p2 : Room → Env → Outcome (Room × Env) Bool)
    (hp : ∀ r e, r.lock = true → p1 r e = p2 r e)
    (hk : ∀ r e, r.lock = true → (p1 r e).state.1.lock = true) :
    ∀ (k : Nat) (room : Room) (env : Env), room.lock = true →
      signalLoop p1 k room env = signalLoop p2 k room env := by
  intro k
  induction k with
  | zero => intro room env _; rfl
  | succ k ih =>
    intro room env hl
    simp only [signalLoop]
    rw [← hp room env hl]
    have hk' := hk room env hl
    cases h1 : p1 room env with
    | returned s tryAgain =>
      obtain ⟨room', env'⟩ := s
      cases tryAgain with
      | true =>
        simp only [if_true]
        apply ih
        rw [h1] at hk'; exact hk'
      | false => rfl
    | blocked s => rfl
    | panicked s => rfl

/-- The body of `Signal` does not depend on what stands for the `Signal` that `RemovePeer`
would call after the pass: that call is behind `RemovePeer`'s `Lock`. -/
theorem SignalBody_nested (nested : Room → Env → Outcome (Room × Env) SignalExit) :
    SignalBody (attemptSyncWith nested) = Signal := by
  funext room env
  unfold Signal SignalBody
  by_cases hl : room.lock = true
  · simp [hl]
  · simp only [hl]
    rw [signalLoop_congr (attemptSyncWith nested) (attemptSyncWith (fun r e => .blocked (r, e)))]
    · intro r e h; exact attemptSyncLoop_congr _ _ r h _ _ _
    · intro r e h
      obtain ⟨ps, h1, _⟩ := attemptSyncWith_locked nested r e h
      rw [h1]; exact h
    · rfl

/-- The recursive equation of the source: `Signal` is its body run with the closure
`attemptSync`, whose `RemovePeer` calls `Signal` again. -/
theorem Signal_unfold : Signal = SignalBody attemptSync :=
  (SignalBody_nested Signal).symm

theorem signalLoop_cases (pass : Room → Env → Outcome (Room × Env) Bool) :
    ∀ (k : Nat) (room : Room) (env : Env),
      (∃ n, n < k ∧ ∃ s s1, retries pass n room env = some s ∧
          pass s.1 s.2 = .returned s1 false ∧
          signalLoop pass k room env = .returned s1 .converged) ∨
      (∃ s, retries pass k room env = some s ∧
          signalLoop pass k room env =
            .returned (s.1, s.2.emit (.signalAfter s.1.id 3)) .deferred) ∨
      (∃ n, n < k ∧ ∃ s s1, retries pass n room env = some s ∧
          ((pass s.1 s.2 = .blocked s1 ∧ signalLoop pass k room env = .blocked s1) ∨
           (pass s.1 s.2 = .panicked s1 ∧ signalLoop pass k room env = .panicked s1))) := by
  intro k
  induction k with
  | zero => intro room env; exact Or.inr (Or.inl ⟨(room, env), rfl, rfl⟩)
  | succ k ih =>
    intro room env
    cases hp : pass room env with
    | returned s tryAgain =>
      obtain ⟨room', env'⟩ := s
      cases tryAgain with
      | false =>
        refine Or.inl ⟨0, Nat.succ_pos k, (room, env), (room', env'), rfl, hp, ?_⟩
        simp [signalLoop, hp]
      | true =>
        have hstep : signalLoop pass (k + 1) room env = signalLoop pass k room' env' := by
          simp [signalLoop, hp]
        have hret : ∀ n, retries pass (n + 1) room env = retries pass n room' env' := by
          intro n; simp [retries, hp]
        rcases ih room' env' with ⟨n, hn, s, s1, h1, h2, h3⟩ | ⟨s, h1, h2⟩ |
            ⟨n, hn, s, s1, h1, h2⟩
        · exact Or.inl ⟨n + 1, Nat.succ_lt_succ hn, s, s1, by rw [hret, h1], h2, by rw [hstep, h3]⟩
        · exact Or.inr (Or.inl ⟨s, by rw [hret, h1], by rw [hstep, h2]⟩)
        · exact Or.inr (Or.inr ⟨n + 1, Nat.succ_lt_succ hn, s, s1, by rw [hret, h1],
            by rw [hstep]; exact h2⟩)
    | blocked s1 =>
      refine Or.inr (Or.inr ⟨0, Nat.succ_pos k, (room, env), s1, rfl, Or.inl ⟨hp, ?_⟩⟩)
      simp [signalLoop, hp]
    | panicked s1 =>
      refine Or.inr (Or.inr ⟨0, Nat.succ_pos k, (room, env), s1, rfl, Or.inr ⟨hp, ?_⟩⟩)
      simp [signalLoop, hp]

theorem retries_inv (pass : Room → Env → Outcome (Room × Env) Bool) (I : Room → Prop)
    (hpass : ∀ r e, I r → I (pass r e).state.1) :
    ∀ (n : Nat) (room : Room) (env : Env) (s : Room × Env),
      I room → retries pass n room env = some s → I s.1 := by
  intro n
  induction n with
  | zero =>
    intro room env s hI h
    simp only [retries, Option.some.injEq] at h
    rw [← h]; exact hI
  | succ n ih =>
    intro room env s hI h
    simp only [retries] at h
    have hp := hpass room env hI
    cases hq : pass room env with
    | returned s' tryAgain =>
      obtain ⟨room', env'⟩ := s'
      rw [hq] at h hp
      cases tryAgain with
      | true => exact ih room' env' s hp h
      | false => simp at h
    | blocked s' => rw [hq] at h; simp at h
    | panicked s' => rw [hq] at h; simp at h

theorem signalLoop_inv (pass : Room → Env → Outcome (Room × Env) Bool) (I : Room → Prop)
    (hpass : ∀ r e, I r → I (pass r e).state.1) :
    ∀ (k : Nat) (room : Room) (env : Env), I room → I (signalLoop pass k room env).state.1 := by
  intro k
  induction k with
  | zero => intro room env hI; exact hI
  | succ k ih =>
    intro room env hI
    have hp := hpass room env hI
    simp only [signalLoop]
    cases hq : pass room env with
    | returned s' tryAgain =>
      obtain ⟨room', env'⟩ := s'
      rw [hq] at hp
      cases tryAgain with
      | true => exact ih room' env' hp
      | false => exact hp
    | blocked s' => rw [hq] at hp; exact hp
    | panicked s' => rw [hq] at hp; exact hp

theorem dispatchKeyFrame_room (room : Room) (env : Env) :
    (dispatchKeyFrame room env).state.1 = room := by
  unfold dispatchKeyFrame
  split
  · rfl
  · dsimp only; split <;> rfl

theorem dispatchKeyFrame_unlocked (room : Room) (env : Env) (h : room.lock = false) :
    dispatchKeyFrame room env = .returned (dispatchKeyFrame room env).state () ∨
    dispatchKeyFrame room env = .panicked (dispatchKeyFrame room env).state := by
  unfold dispatchKeyFrame
  simp only [h, Bool.false_eq_true, if_false]
  split
  · exact Or.inr rfl
  · exact Or.inl rfl

theorem keyFramePeers_transports :
    ∀ (peers : List (String × Peer)) (env : Env),
      (∀ e ∈ peers, e.2.peerConnection ≠ none) → (keyFramePeers peers env).2 = false := by
  intro peers
  induction peers with
  | nil => intro env _; rfl
  | cons e rest ih =>
    intro env h
    obtain ⟨key, pid, ws, opc⟩ := e
    cases opc with
    | none => exact absurd rfl (h _ (List.mem_cons_self _ _))
    | some pc =>
      simp only [keyFramePeers]
      exact ih _ (fun e he => h e (List.mem_cons_of_mem _ he))

theorem dispatchKeyFrame_returns (room : Room) (env : Env) (h : room.lock = false)
    (ht : ∀ e ∈ room.peers, e.2.peerConnection ≠ none) :
    dispatchKeyFrame room env = .returned (dispatchKeyFrame room env).state () := by
  unfold dispatchKeyFrame
  simp [h, keyFramePeers_transports room.peers env ht, Outcome.state]

theorem scheduled_emit_pli (env : Env) (peer : String) (ssrc : Nat) :
    scheduled (env.emit (.pli peer ssrc)) = scheduled env := by
  simp [scheduled, Env.emit, List.filter_append]

theorem scheduled_keyFrameReceivers (peer : String) :
    ∀ (receivers : List (Option TrackRemote)) (env : Env),
      scheduled (keyFrameReceivers peer receivers env) = scheduled env := by
  intro receivers
  induction receivers with
  | nil => intro env; rfl
  | cons r rest ih =>
    intro env
    cases r with
    | none => exact ih env
    | some t => simp only [keyFrameReceivers]; rw [ih, scheduled_emit_pli]

theorem scheduled_keyFramePeers :
    ∀ (peers : List (String × Peer)) (env : Env),
      scheduled (keyFramePeers peers env).1 = scheduled env := by
  intro peers
  induction peers with
  | nil => intro env; rfl
  | cons e rest ih =>
    intro env
    obtain ⟨key, pid, ws, opc⟩ := e
    cases opc with
    | none => rfl
    | some pc => simp only [keyFramePeers]; rw [ih, scheduled_keyFrameReceivers]

theorem scheduled_dispatchKeyFrame (room : Room) (env : Env) :
    scheduled (dispatchKeyFrame room env).state.2 = scheduled env := by
  unfold dispatchKeyFrame
  split
  · rfl
  · dsimp only; split <;> exact scheduled_keyFramePeers _ _

theorem mapGet_isSome_iff {α : Type} (m : List (String × α)) (k : String) :
    (mapGet m k).isSome = true ↔ k ∈ m.map Prod.fst := by
  induction m with
  | nil => simp [mapGet]
  | cons e rest ih =>
    obtain ⟨k', v⟩ := e
    simp only [mapGet, List.map_cons, List.mem_cons]
    by_cases hk : k' = k
    · simp [hk]
    · simp only [hk, if_false, ih]
      constructor
      · intro h; exact Or.inr h
      · intro h; rcases h with h | h
        · exact absurd h.symm hk
        · exact h

theorem mem_senderTrackIDs (senders : List (Option TrackLocalStaticRTP)) (x : String) :
    x ∈ senderTrackIDs senders ↔ ∃ t, some t ∈ senders ∧ t.id = x := by
  simp only [senderTrackIDs, List.mem_filterMap]
  constructor
  · rintro ⟨s, hs, h⟩
    cases s with
    | none => simp at h
    | some t => simp at h; exact ⟨t, hs, h⟩
  · rintro ⟨t, ht, h⟩
    exact ⟨some t, ht, by simp [h]⟩

theorem mem_keptSenders (tracks : List (String × TrackLocalStaticRTP))
    (senders : List (Option TrackLocalStaticRTP)) (t : TrackLocalStaticRTP) :
    some t ∈ keptSenders tracks senders ↔
      some t ∈ senders ∧ (mapGet tracks t.id).isSome = true := by
  simp [keptSenders, List.mem_filter]

theorem mem_tracksToAdd (tracks : List (String × TrackLocalStaticRTP)) (pc : PeerConnection)
    (t : TrackLocalStaticRTP) :
    t ∈ tracksToAdd tracks pc ↔
      ∃ k, (k, t) ∈ tracks ∧ k ∉ senderTrackIDs pc.senders ∧
        k ∉ receiverTrackIDs pc.receivers := by
  simp only [tracksToAdd, List.mem_map, List.mem_filter, Bool.and_eq_true, decide_eq_true_eq]
  constructor
  · rintro ⟨e, ⟨he, h1, h2⟩, rfl⟩
    exact ⟨e.1, he, h1, h2⟩
  · rintro ⟨k, hk, h1, h2⟩
    exact ⟨(k, t), ⟨hk, h1, h2⟩, rfl⟩

/-- After the sync of one peer every registry track that is not the peer's own is bound. -/
theorem syncedSenders_complete (tracks : List (String × TrackLocalStaticRTP))
    (pc : PeerConnection) (hwf : tracksWF tracks) (T : String)
    (hT : T ∈ tracks.map Prod.fst) (hr : T ∉ receiverTrackIDs pc.receivers) :
    ∃ t, some t ∈ syncedSenders tracks pc ∧ t.id = T := by
  by_cases hs : T ∈ senderTrackIDs pc.senders
  · obtain ⟨t, ht, hid⟩ := (mem_senderTrackIDs _ _).1 hs
    refine ⟨t, ?_, hid⟩
    simp only [syncedSenders, List.mem_append]
    left
    rw [mem_keptSenders]
    exact ⟨ht, by rw [hid]; exact (mapGet_isSome_iff _ _).2 hT⟩
  · obtain ⟨e, he, hk⟩ := List.mem_map.1 hT
    refine ⟨e.2, ?_, by rw [hwf e he, hk]⟩
    simp only [syncedSenders, List.mem_append]
    right
    refine List.mem_map.2 ⟨e.2, ?_, rfl⟩
    rw [mem_tracksToAdd]
    exact ⟨e.1, he, by rw [hk]; exact hs, by rw [hk]; exact hr⟩

/-- After the sync of one peer every bound sender carries a registry track. -/
theorem syncedSenders_fresh (tracks : List (String × TrackLocalStaticRTP))
    (pc : PeerConnection) (hwf : tracksWF tracks) (t : TrackLocalStaticRTP)
    (ht : some t ∈ syncedSenders tracks pc) : (mapGet tracks t.id).isSome = true := by
  simp only [syncedSenders, List.mem_append] at ht
  rcases ht with ht | ht
  · exact ((mem_keptSenders _ _ _).1 ht).2
  · obtain ⟨u, hu, hut⟩ := List.mem_map.1 ht
    simp only [Option.some.injEq] at hut
    subst hut
    obtain ⟨k, hk, _, _⟩ := (mem_tracksToAdd _ _ _).1 hu
    rw [mapGet_isSome_iff]
    exact List.mem_map.2 ⟨(k, u), hk, (hwf _ hk).symm⟩

theorem attemptSync_ok (room room' : Room) (env env' : Env)
    (h : attemptSync room env = .returned (room', env') false) :
    room' = { room with peers := room.peers.map (fun e => (e.1, syncedPeer room.tracks e.2)) } ∧
    ∀ e ∈ room.peers, ∃ pc, e.2.peerConnection = some pc ∧ pc.connectionState ≠ .closed := by
  have := attemptSyncLoop_ok Signal room room.peers [] env room' env' h
  simpa using this

theorem syncSenders_stable (tracks : List (String × TrackLocalStaticRTP)) :
    ∀ (senders : List (Option TrackLocalStaticRTP)) (ex : List String) (env : Env),
      (∀ t, some t ∈ senders → (mapGet tracks t.id).isSome = true) →
      (syncSenders tracks senders ex env).1 = senders ∧
      (syncSenders tracks senders ex env).2.2.1 = env ∧
      (syncSenders tracks senders ex env).2.2.2 = false := by
  intro senders
  induction senders with
  | nil => intro ex env _; simp [syncSenders]
  | cons s rest ih =>
    intro ex env h
    have hrest : ∀ t, some t ∈ rest → (mapGet tracks t.id).isSome = true :=
      fun t ht => h t (List.mem_cons_of_mem _ ht)
    cases s with
    | none =>
      simp only [syncSenders]
      obtain ⟨h1, h2, h3⟩ := ih ex env hrest
      exact ⟨by rw [h1], h2, h3⟩
    | some t =>
      have hk := h t (List.mem_cons_self _ _)
      simp only [syncSenders, hk, if_true]
      obtain ⟨h1, h2, h3⟩ := ih (t.id :: ex) env hrest
      exact ⟨by rw [h1], h2, h3⟩

theorem syncTracks_stable (ex : List String) :
    ∀ (todo : List (String × TrackLocalStaticRTP)) (pc : PeerConnection) (env : Env),
      (∀ e ∈ todo, e.1 ∈ ex) → syncTracks ex todo pc env = (pc, env, false) := by
  intro todo
  induction todo with
  | nil => intro pc env _; rfl
  | cons e rest ih =>
    intro pc env h
    obtain ⟨trackID, track⟩ := e
    have h1 : trackID ∈ ex := h (trackID, track) (List.mem_cons_self _ _)
    simp only [syncTracks, h1, if_true]
    exact ih pc env (fun e he => h e (List.mem_cons_of_mem _ he))

/-- A peer whose senders all carry registry tracks and for whom every registry track is
bound or its own is left as it is by the sync, whatever the library calls answer. -/
theorem syncPeer_stable (room : Room) (peer : Peer) (pc : PeerConnection) (env : Env)
    (hfresh : ∀ t, some t ∈ pc.senders → (mapGet room.tracks t.id).isSome = true)
    (hbound : ∀ e ∈ room.tracks,
      e.1 ∈ senderTrackIDs pc.senders ∨ e.1 ∈ receiverTrackIDs pc.receivers) :
    (syncPeer room peer pc env).state.1 = pc := by
  obtain ⟨h1, h2, h3⟩ := syncSenders_stable room.tracks pc.senders [] env hfresh
  have hmem := (syncSenders_ok room.tracks pc.senders [] env h3).2
  have hall : ∀ e ∈ room.tracks,
      e.1 ∈ syncReceivers pc.receivers (syncSenders room.tracks pc.senders [] env).2.1 := by
    intro e he
    rw [mem_syncReceivers, hmem]
    rcases hbound e he with h | h
    · exact Or.inr (Or.inl h)
    · exact Or.inl h
  have ht := syncTracks_stable _ room.tracks
    { pc with senders := (syncSenders room.tracks pc.senders [] env).1 }
    (syncSenders room.tracks pc.senders [] env).2.2.1 hall
  rw [h1] at ht
  unfold syncPeer
  simp only [h3, Bool.false_eq_true, if_false, h1, ht]
  split
  · rfl
  · split <;> rfl

theorem attemptSyncLoop_stable (signal : Room → Env → Outcome (Room × Env) SignalExit)
    (room : Room) :
    ∀ (todo visited : List (String × Peer)) (env : Env),
      (∀ e ∈ todo, ∃ pc, e.2.peerConnection = some pc ∧ pc.connectionState ≠ .closed ∧
        (∀ t, some t ∈ pc.senders → (mapGet room.tracks t.id).isSome = true) ∧
        (∀ k ∈ room.tracks,
          k.1 ∈ senderTrackIDs pc.senders ∨ k.1 ∈ receiverTrackIDs pc.receivers)) →
      (attemptSyncLoop signal room visited todo env).state.1.peers = visited ++ todo := by
  intro todo
  induction todo with
  | nil => intro visited env _; simp [attemptSyncLoop, Outcome.state]
  | cons e rest ih =>
    intro visited env h
    obtain ⟨key, pid, ws, opc⟩ := e
    obtain ⟨pc, hpc, hc, hfresh, hbound⟩ := h _ (List.mem_cons_self _ _)
    simp only at hpc
    subst hpc
    have hst := syncPeer_stable room ⟨pid, ws, some pc⟩ pc env hfresh hbound
    simp only [attemptSyncLoop, hc, if_false]
    cases hp : syncPeer room ⟨pid, ws, some pc⟩ pc env with
    | returned s tryAgain =>
      obtain ⟨pc', env1⟩ := s
      rw [hp] at hst
      simp only [Outcome.state] at hst
      subst hst
      cases tryAgain with
      | true => rfl
      | false =>
        simp only [Bool.false_eq_true, if_false]
        rw [ih _ _ (fun e he => h e (List.mem_cons_of_mem _ he))]
        simp
    | blocked s =>
      rw [hp] at hst
      simp only [Outcome.state] at hst
      simp [Outcome.state, hst]
    | panicked s =>
      rw [hp] at hst
      simp only [Outcome.state] at hst
      simp [Outcome.state, hst]

/-- A pass that reported "no retry" leaves a room on which a further pass changes no peer. -/
theorem attemptSync_repeat (room room' : Room) (env env' : Env) (hwf : tracksWF room.tracks)
    (h : attemptSync room env = .returned (room', env') false) (env2 : Env) :
    (attemptSync room' env2).state.1.peers = room'.peers := by
  obtain ⟨h1, h2⟩ := attemptSync_ok room room' env env' h
  have htr : room'.tracks = room.tracks := by rw [h1]
  have := attemptSyncLoop_stable Signal room' room'.peers [] env2 (by
    intro e he
    rw [h1] at he
    obtain ⟨e0, he0, rfl⟩ := List.mem_map.1 he
    obtain ⟨pc, hpc, hc⟩ := h2 e0 he0
    refine ⟨{ pc with senders := syncedSenders room.tracks pc }, by simp [syncedPeer, hpc], hc,
      ?_, ?_⟩
    · intro t ht
      rw [htr]
      exact syncedSenders_fresh room.tracks pc hwf t ht
    · intro k hk
      rw [htr] at hk
      by_cases hr : k.1 ∈ receiverTrackIDs pc.receivers
      · exact Or.inr hr
      · left
        obtain ⟨t, ht, hid⟩ := syncedSenders_complete room.tracks pc hwf k.1
          (List.mem_map.2 ⟨k, hk, rfl⟩) hr
        exact (mem_senderTrackIDs _ _).2 ⟨t, ht, hid⟩)
  simpa [attemptSync, attemptSyncWith] using this

theorem attemptSync_locked_inv (T : List (String × TrackLocalStaticRTP)) (r : Room) (e : Env)
    (h : r.lock = true ∧ r.tracks = T) :
    (attemptSync r e).state.1.lock = true ∧ (attemptSync r e).state.1.tracks = T := by
  obtain ⟨ps, h1, _⟩ := attemptSyncWith_locked Signal r e h.1
  unfold attemptSync
  rw [h1]
  exact h

theorem Signal_converged (room room' : Room) (env env' : Env)
    (h : Signal room env = .returned (room', env') .converged) :
    ∃ r e r1 e1, r.tracks = room.tracks ∧ attemptSync r e = .returned (r1, e1) false ∧
      room' = { r1 with lock := false } := by
  rw [Signal_unfold] at h
  unfold SignalBody at h
  by_cases hl : room.lock = true
  · simp [hl] at h
  · simp only [hl] at h
    rcases signalLoop_cases attemptSync 25 { room with lock := true } env with
      ⟨n, _, s, s1, h1, h2, h3⟩ | ⟨s, _, h2⟩ | ⟨n, _, s, s1, _, h2 | h2⟩
    · have hI := retries_inv attemptSync (fun r => r.lock = true ∧ r.tracks = room.tracks)
        (fun r e hr => attemptSync_locked_inv room.tracks r e hr) n { room with lock := true } env s
        ⟨rfl, rfl⟩ h1
      refine ⟨s.1, s.2, s1.1, s1.2, hI.2, h2, ?_⟩
      rw [h3] at h
      have hd := dispatchKeyFrame_room { s1.1 with lock := false } s1.2
      simp only [Bool.false_eq_true, if_false] at h
      cases hq : dispatchKeyFrame { s1.1 with lock := false } s1.2 with
      | returned s' u =>
        rw [hq] at h hd
        simp only [Outcome.returned.injEq, and_true] at h
        simp only [Outcome.state] at hd
        rw [← hd, h]
      | blocked s' => rw [hq] at h; simp at h
      | panicked s' => rw [hq] at h; simp at h
    · rw [h2] at h
      simp only [Bool.false_eq_true, if_false] at h
      split at h <;> simp at h
    · rw [h2.2] at h; simp at h
    · rw [h2.2] at h; simp at h

theorem syncTracks_frame (ex : List String) :
    ∀ (todo : List (String × TrackLocalStaticRTP)) (pc : PeerConnection) (env : Env),
      (syncTracks ex todo pc env).1.connectionState = pc.connectionState ∧
      (syncTracks ex todo pc env).1.receivers = pc.receivers := by
  intro todo
  induction todo with
  | nil => intro pc env; exact ⟨rfl, rfl⟩
  | cons e rest ih =>
    intro pc env
    obtain ⟨trackID, track⟩ := e
    simp only [syncTracks]
    by_cases hm : trackID ∈ ex
    · simp only [hm, if_true]; exact ih pc env
    · simp only [hm, if_false]
      cases hc : env.call.1 with
      | true => exact ⟨rfl, rfl⟩
      | false =>
        simp only [Bool.false_eq_true, if_false]
        exact ih (pc.AddTrack track) env.call.2

/-- In every outcome the sync of one peer leaves the state and the receivers of its
transport alone. -/
theorem syncPeer_frame (room : Room) (peer : Peer) (pc : PeerConnection) (env : Env) :
    (syncPeer room peer pc env).state.1.connectionState = pc.connectionState ∧
    (syncPeer room peer pc env).state.1.receivers = pc.receivers := by
  unfold syncPeer
  dsimp only
  split
  · exact ⟨rfl, rfl⟩
  · have ht := syncTracks_frame
      (syncReceivers pc.receivers (syncSenders room.tracks pc.senders [] env).2.1) room.tracks
      { pc with senders := (syncSenders room.tracks pc.senders [] env).1 }
      (syncSenders room.tracks pc.senders [] env).2.2.1
    split
    · exact ht
    · split
      · exact ht
      · split <;> exact ht

theorem withoutSenders_eq (key : String) (peer : Peer) (pc pc' : PeerConnection)
    (hpc : peer.peerConnection = some pc)
    (h : pc'.connectionState = pc.connectionState ∧ pc'.receivers = pc.receivers) :
    withoutSenders (key, { peer with peerConnection := some pc' }) = withoutSenders (key, peer) := by
  obtain ⟨pid, ws, opc⟩ := peer
  simp only at hpc
  subst hpc
  simp [withoutSenders, h.1, h.2]

/-- What a pass keeps while the room lock is held, in every outcome: the room with its
peers in the same order, each changed in the senders of its transport at most. -/
theorem attemptSyncLoop_frame (signal : Room → Env → Outcome (Room × Env) SignalExit)
    (room : Room) (hl : room.lock = true) :
    ∀ (todo visited : List (String × Peer)) (env : Env),
      ∃ ps, (attemptSyncLoop signal room visited todo env).state.1 = { room with peers := ps } ∧
        ps.map withoutSenders = (visited ++ todo).map withoutSenders := by
  intro todo
  induction todo with
  | nil => intro visited env; exact ⟨visited, by simp [attemptSyncLoop, Outcome.state]⟩
  | cons e rest ih =>
    intro visited env
    obtain ⟨key, peer⟩ := e
    cases hopc : peer.peerConnection with
    | none =>
      simp only [attemptSyncLoop, hopc]
      exact ⟨_, rfl, rfl⟩
    | some pc =>
      simp only [attemptSyncLoop, hopc]
      by_cases hc : pc.connectionState = .closed
      · simp only [hc, if_true]
        simp only [RemovePeerWith, hl, if_true]
        exact ⟨_, rfl, rfl⟩
      · simp only [hc, if_false]
        have hf := syncPeer_frame room peer pc env
        cases hp : syncPeer room peer pc env with
        | returned s tryAgain =>
          obtain ⟨pc', env1⟩ := s
          rw [hp] at hf
          have he := withoutSenders_eq key peer pc pc' hopc hf
          cases tryAgain with
          | true => exact ⟨_, rfl, by simp [he]⟩
          | false =>
            simp only [Bool.false_eq_true, if_false]
            obtain ⟨ps, h1, h2⟩ := ih (visited ++ [(key, { peer with peerConnection := some pc' })]) env1
            exact ⟨ps, h1, by rw [h2]; simp [he]⟩
        | blocked s =>
          rw [hp] at hf
          have he := withoutSenders_eq key peer pc s.1 hopc hf
          exact ⟨_, rfl, by simp [he]⟩
        | panicked s =>
          rw [hp] at hf
          have he := withoutSenders_eq key peer pc s.1 hopc hf
          exact ⟨_, rfl, by simp [he]⟩

/-- In every outcome `Signal` leaves the room with the peers it found, in the same order,
each changed in the senders of its transport at most. -/
theorem Signal_frame (room : Room) (env : Env) :
    (Signal room env).state.1.peers.map withoutSenders = room.peers.map withoutSenders := by
  unfold Signal SignalBody
  by_cases hl : room.lock = true
  · simp [hl, Outcome.state]
  · simp only [hl]
    have hI := signalLoop_inv (attemptSyncWith (fun r e => .blocked (r, e)))
      (fun r => r.lock = true ∧ r.peers.map withoutSenders = room.peers.map withoutSenders)
      (fun r e hr => by
        obtain ⟨ps, h1, h2⟩ := attemptSyncLoop_frame (fun r e => .blocked (r, e)) r hr.1
          r.peers [] e
        unfold attemptSyncWith
        rw [h1]
        exact ⟨hr.1, by rw [h2]; simpa using hr.2⟩)
      25 { room with lock := true } env ⟨rfl, rfl⟩
    cases hq : signalLoop (attemptSyncWith (fun r e => .blocked (r, e))) 25
        { room with lock := true } env with
    | returned s exit =>
      rw [hq] at hI
      have hd := dispatchKeyFrame_room { s.1 with lock := false } s.2
      simp only [Bool.false_eq_true, if_false]
      cases hk : dispatchKeyFrame { s.1 with lock := false } s.2 with
      | returned s' u => rw [hk] at hd; simp only [Outcome.state] at hd ⊢; rw [hd]; exact hI.2
      | blocked s' => rw [hk] at hd; simp only [Outcome.state] at hd ⊢; rw [hd]; exact hI.2
      | panicked s' => rw [hk] at hd; simp only [Outcome.state] at hd ⊢; rw [hd]; exact hI.2
    | blocked s => rw [hq] at hI; exact hI.2
    | panicked s =>
      rw [hq] at hI
      simp only [Bool.false_eq_true, if_false]
      show ((dispatchKeyFrame _ _).state).1.peers.map _ = _
      rw [dispatchKeyFrame_room]
      exact hI.2

theorem keys_of_withoutSenders (ps qs : List (String × Peer))
    (h : ps.map withoutSenders = qs.map withoutSenders) :
    ps.map Prod.fst = qs.map Prod.fst := by
  have := congrArg (List.map Prod.fst) h
  simpa [List.map_map, Function.comp_def, withoutSenders] using this

/-- C1 (fan-out completeness): when `Signal` leaves its loop through a pass that reported
"no retry", the room has the track registry and the peers it had when `Signal` was called
(same ids in the same order, each peer changed in the senders of its transport at most),
and every one of these peers has a transport on which, for each track id `T` of the
registry that is not the id of a track on one of the peer's own receivers, some sender is
bound to a track with id `T`. -/
theorem Signal_fanout_complete (room room' : Room) (env env' : Env)
    (hwf : tracksWF room.tracks)
    (h : Signal room env = .returned (room', env') .converged) :
    room'.tracks = room.tracks ∧
    room'.peers.map Prod.fst = room.peers.map Prod.fst ∧
    room'.peers.map withoutSenders = room.peers.map withoutSenders ∧
    ∀ e ∈ room'.peers, ∃ pc, e.2.peerConnection = some pc ∧
      ∀ T ∈ room'.tracks.map Prod.fst, T ∉ receiverTrackIDs pc.receivers →
        ∃ t, some t ∈ pc.senders ∧ t.id = T := by
  have hframe : room'.peers.map withoutSenders = room.peers.map withoutSenders := by
    have := Signal_frame room env
    rw [h] at this
    exact this
  obtain ⟨r, e, r1, e1, htr, hpass, hroom⟩ := Signal_converged room room' env env' h
  obtain ⟨h1, h2⟩ := attemptSync_ok r r1 e e1 hpass
  have htracks : room'.tracks = room.tracks := by rw [hroom, h1]; exact htr
  refine ⟨htracks, keys_of_withoutSenders _ _ hframe, hframe, ?_⟩
  intro p hp
  rw [hroom, h1] at hp
  obtain ⟨p0, hp0, rfl⟩ := List.mem_map.1 hp
  obtain ⟨pc, hpc, _⟩ := h2 p0 hp0
  refine ⟨{ pc with senders := syncedSenders r.tracks pc }, by simp [syncedPeer, hpc], ?_⟩
  intro T hT hrecv
  rw [htracks, ← htr] at hT
  exact syncedSenders_complete r.tracks pc (by rw [htr]; exact hwf) T hT hrecv

/-- Witness for C1: the three-peer room of scenario 2, every library call succeeding;
peers `a`, `b`, `c` are all still there and each is bound to the two tracks of the others. -/
theorem Signal_fanout_complete_witness :
    tracksWF threePeersFree.tracks ∧
    Signal threePeersFree env0 =
      .returned ((Signal threePeersFree env0).state.1, (Signal threePeersFree env0).state.2)
        .converged ∧
    (Signal threePeersFree env0).state.1.peers.map (fun e => (e.1, boundSenderIDs e.2)) =
      [("a", ["tb", "tc"]), ("b", ["ta", "tc"]), ("c", ["ta", "tb"])] ∧
    (Signal threePeersFree env0).state.1.peers.map Prod.fst = ["a", "b", "c"] ∧
    (Signal threePeersFree env0).state.1.peers.map withoutSenders =
      threePeersFree.peers.map withoutSenders ∧
    ∀ e ∈ (Signal threePeersFree env0).state.1.peers,
      ∃ pc, e.2.peerConnection = some pc ∧
      ∀ T ∈ (Signal threePeersFree env0).state.1.tracks.map Prod.fst,
        T ∉ receiverTrackIDs pc.receivers → ∃ t, some t ∈ pc.senders ∧ t.id = T :=
  ⟨by decide, by decide, by decide, by decide,
   (Signal_fanout_complete threePeersFree (Signal threePeersFree env0).state.1
      env0 (Signal threePeersFree env0).state.2 (by decide) (by decide)).2.2.1,
   (Signal_fanout_complete threePeersFree (Signal threePeersFree env0).state.1
      env0 (Signal threePeersFree env0).state.2 (by decide) (by decide)).2.2.2⟩

/-- C2 (no stale senders): after a pass that reported "no retry", every sender of every
peer of the room that has a bound track is bound to a track whose id is a key of the
registry; the senders of a peer are those it had at the start of the pass, less the ones
bound to a track whose id was missing from the registry, followed by the new ones. -/
theorem attemptSync_no_stale_senders (room room' : Room) (env env' : Env)
    (hwf : tracksWF room.tracks)
    (h : attemptSync room env = .returned (room', env') false) :
    room'.tracks = room.tracks ∧
    (∀ e ∈ room'.peers, ∃ pc, e.2.peerConnection = some pc ∧
      ∀ t, some t ∈ pc.senders → t.id ∈ room'.tracks.map Prod.fst) ∧
    List.Forall₂ (fun e e' => e'.1 = e.1 ∧ ∃ pc pc', e.2.peerConnection = some pc ∧
      e'.2.peerConnection = some pc' ∧
      ∃ added, pc'.senders = keptSenders room.tracks pc.senders ++ added)
      room.peers room'.peers := by
  obtain ⟨h1, h2⟩ := attemptSync_ok room room' env env' h
  have htracks : room'.tracks = room.tracks := by rw [h1]
  refine ⟨htracks, ?_, ?_⟩
  · intro p hp
    rw [h1] at hp
    obtain ⟨p0, hp0, rfl⟩ := List.mem_map.1 hp
    obtain ⟨pc, hpc, _⟩ := h2 p0 hp0
    refine ⟨{ pc with senders := syncedSenders room.tracks pc }, by simp [syncedPeer, hpc], ?_⟩
    intro t ht
    rw [htracks, ← mapGet_isSome_iff]
    exact syncedSenders_fresh room.tracks pc hwf t ht
  · rw [h1]
    simp only
    rw [List.forall₂_map_right_iff]
    apply List.forall₂_same.2
    intro p hp
    obtain ⟨pc, hpc, _⟩ := h2 p hp
    exact ⟨rfl, pc, { pc with senders := syncedSenders room.tracks pc }, hpc,
      by simp [syncedPeer, hpc], _, rfl⟩

/-- Witness for C2: a room whose only peer holds a sender for a track that has left the
registry and a sender for a track that is still there. -/
theorem attemptSync_no_stale_senders_witness :
    tracksWF staleRoom.tracks ∧
    attemptSync staleRoom env0 = .returned (staleRoomSynced, ⟨[], [.offer 1]⟩) false ∧
    ∀ e ∈ staleRoomSynced.peers, ∃ pc, e.2.peerConnection = some pc ∧
      ∀ t, some t ∈ pc.senders → t.id ∈ staleRoomSynced.tracks.map Prod.fst :=
  ⟨by decide, by decide,
   (attemptSync_no_stale_senders staleRoom staleRoomSynced env0 ⟨[], [.offer 1]⟩
      (by decide) (by decide)).2.1⟩

/-- C3 (no self-echo, no double send): in a pass that reported "no retry" each peer ends
with the senders it had (less the stale ones) followed by one new sender for
each registry track whose id was neither bound to one of its senders nor the id of a track
on one of its own receivers, and nothing else about the peer changes; a repeated pass
changes no peer; and in the three-peer room of scenario 2 each peer ends with exactly the
two tracks of the other two peers bound. -/
theorem attemptSync_adds_exactly (room room' : Room) (env env' : Env)
    (hwf : tracksWF room.tracks)
    (h : attemptSync room env = .returned (room', env') false) :
    room'.peers = room.peers.map (fun e => (e.1, syncedPeer room.tracks e.2)) ∧
    (∀ env2, (attemptSync room' env2).state.1.peers = room'.peers) ∧
    (∀ a b c : TrackRemote, a.id ≠ b.id → a.id ≠ c.id → b.id ≠ c.id →
      room = threePeers a b c →
      room'.peers.map (fun e => (e.1, boundSenderIDs e.2)) =
        [("a", [b.id, c.id]), ("b", [a.id, c.id]), ("c", [a.id, b.id])]) := by
  obtain ⟨h1, _⟩ := attemptSync_ok room room' env env' h
  have hp : room'.peers = room.peers.map (fun e => (e.1, syncedPeer room.tracks e.2)) := by
    rw [h1]
  refine ⟨hp, fun env2 => attemptSync_repeat room room' env env' hwf h env2, ?_⟩
  intro a b c hab hac hbc hroom
  rw [hp, hroom]
  simp [threePeers, syncedPeer, syncedSenders, keptSenders, tracksToAdd, senderTrackIDs,
    receiverTrackIDs, boundSenderIDs, hab, hac, hbc, hab.symm, hac.symm, hbc.symm]

/-- Witness for C3: scenario 2 with the tracks `ta`, `tb`, `tc`, every library call
succeeding. -/
theorem attemptSync_adds_exactly_witness :
    tracksWF (threePeers trackA trackB trackC).tracks ∧
    (attemptSync (threePeers trackA trackB trackC) env0).state.1.peers.map
        (fun e => (e.1, boundSenderIDs e.2)) =
      [("a", ["tb", "tc"]), ("b", ["ta", "tc"]), ("c", ["ta", "tb"])] :=
  ⟨by decide,
   (attemptSync_adds_exactly (threePeers trackA trackB trackC)
      (attemptSync (threePeers trackA trackB trackC) env0).state.1 env0
      (attemptSync (threePeers trackA trackB trackC) env0).state.2
      (by decide) (by decide)).2.2 trackA trackB trackC (by decide) (by decide) (by decide) rfl⟩

/-- C5, evaluated on the code: a room whose first peer in iteration order has a closed
transport.  The pass calls `RemovePeer`, which waits for the room lock that the running
`Signal` holds: the pass does not return, the peer stays in `room.peers`, and the lock
stays held. -/
theorem Signal_closed_peer_deadlock (id key pid : String) (ws : Option Nat)
    (senders : List (Option TrackLocalStaticRTP)) (receivers : List (Option TrackRemote))
    (rest : List (String × Peer)) (tracks : List (String × TrackLocalStaticRTP)) (env : Env) :
    attemptSync ⟨id, (key, ⟨pid, ws, some ⟨.closed, senders, receivers⟩⟩) :: rest, tracks, true⟩
        env =
      .blocked (⟨id, (key, ⟨pid, ws, some ⟨.closed, senders, receivers⟩⟩) :: rest, tracks,
        true⟩, env) ∧
    Signal ⟨id, (key, ⟨pid, ws, some ⟨.closed, senders, receivers⟩⟩) :: rest, tracks, false⟩
        env =
      .blocked (⟨id, (key, ⟨pid, ws, some ⟨.closed, senders, receivers⟩⟩) :: rest, tracks,
        true⟩, env) := by
  constructor
  · simp [attemptSync, attemptSyncWith, attemptSyncLoop, RemovePeerWith]
  · simp [Signal, SignalBody, signalLoop, attemptSyncWith, attemptSyncLoop, RemovePeerWith]

/-- C8 (bounded convergence loop): for every pass function, `Signal` run on a free lock
does one of three things.  Either some pass among the first 25 reports "no retry": all
passes before it reported "try again", no pass follows it, no later `Signal` is scheduled,
and `Signal` ends after the keyframe dispatch with the lock released (it returns when every
peer has a transport; the keyframe dispatch panics on a peer without one).  Or 25 passes
in a row report "try again": no 26th pass runs, exactly one `Signal` is scheduled 3 seconds
later, and `Signal` ends in the same way with the lock released.  Or one of the first 25
passes has no outcome: it neither reports "try again" nor "no retry". -/
theorem SignalBody_bounded (pass : Room → Env → Outcome (Room × Env) Bool)
    (room : Room) (env : Env) :
    (∃ n, n < 25 ∧ ∃ s s1, retries pass n { room with lock := true } env = some s ∧
        pass s.1 s.2 = .returned s1 false ∧
        (SignalBody pass { room with lock := false } env =
            .returned (dispatchKeyFrame { s1.1 with lock := false } s1.2).state .converged ∨
         SignalBody pass { room with lock := false } env =
            .panicked (dispatchKeyFrame { s1.1 with lock := false } s1.2).state) ∧
        ((∀ e ∈ s1.1.peers, e.2.peerConnection ≠ none) →
          SignalBody pass { room with lock := false } env =
            .returned (dispatchKeyFrame { s1.1 with lock := false } s1.2).state .converged) ∧
        (dispatchKeyFrame { s1.1 with lock := false } s1.2).state.1.lock = false ∧
        scheduled (dispatchKeyFrame { s1.1 with lock := false } s1.2).state.2 =
          scheduled s1.2) ∨
    (∃ s, retries pass 25 { room with lock := true } env = some s ∧
        (SignalBody pass { room with lock := false } env =
            .returned (dispatchKeyFrame { s.1 with lock := false }
              (s.2.emit (.signalAfter s.1.id 3))).state .deferred ∨
         SignalBody pass { room with lock := false } env =
            .panicked (dispatchKeyFrame { s.1 with lock := false }
              (s.2.emit (.signalAfter s.1.id 3))).state) ∧
        ((∀ e ∈ s.1.peers, e.2.peerConnection ≠ none) →
          SignalBody pass { room with lock := false } env =
            .returned (dispatchKeyFrame { s.1 with lock := false }
              (s.2.emit (.signalAfter s.1.id 3))).state .deferred) ∧
        (dispatchKeyFrame { s.1 with lock := false }
          (s.2.emit (.signalAfter s.1.id 3))).state.1.lock = false ∧
        scheduled (dispatchKeyFrame { s.1 with lock := false }
          (s.2.emit (.signalAfter s.1.id 3))).state.2 =
          scheduled s.2 ++ [.signalAfter s.1.id 3]) ∨
    (∃ n, n < 25 ∧ ∃ s, retries pass n { room with lock := true } env = some s ∧
        ∀ s1 b, pass s.1 s.2 ≠ .returned s1 b) := by
  have hbody : ∀ s1 exit,
      signalLoop pass 25 { room with lock := true } env = .returned s1 exit →
      (SignalBody pass { room with lock := false } env =
          .returned (dispatchKeyFrame { s1.1 with lock := false } s1.2).state exit ∨
       SignalBody pass { room with lock := false } env =
          .panicked (dispatchKeyFrame { s1.1 with lock := false } s1.2).state) ∧
      ((∀ e ∈ s1.1.peers, e.2.peerConnection ≠ none) →
        SignalBody pass { room with lock := false } env =
          .returned (dispatchKeyFrame { s1.1 with lock := false } s1.2).state exit) := by
    intro s1 exit hloop
    have hloop' : signalLoop pass 25
        { ({ room with lock := false } : Room) with lock := true } env = .returned s1 exit :=
      hloop
    unfold SignalBody
    simp only [Bool.false_eq_true, if_false, hloop']
    have hd := dispatchKeyFrame_unlocked { s1.1 with lock := false } s1.2 rfl
    have hr := dispatchKeyFrame_returns { s1.1 with lock := false } s1.2 rfl
    cases hq : dispatchKeyFrame { s1.1 with lock := false } s1.2 with
    | returned s' u => exact ⟨Or.inl rfl, fun _ => rfl⟩
    | blocked s' => rw [hq] at hd; simp at hd
    | panicked s' =>
      refine ⟨Or.inr rfl, fun ht => ?_⟩
      have := hr ht
      rw [hq] at this
      simp at this
  rcases signalLoop_cases pass 25 { room with lock := true } env with
    ⟨n, hn, s, s1, h1, h2, h3⟩ | ⟨s, h1, h2⟩ | ⟨n, hn, s, s1, h1, h2⟩
  · refine Or.inl ⟨n, hn, s, s1, h1, h2, (hbody s1 _ h3).1, (hbody s1 _ h3).2, ?_, ?_⟩
    · rw [dispatchKeyFrame_room]
    · rw [scheduled_dispatchKeyFrame]
  · refine Or.inr (Or.inl ⟨s, h1, (hbody _ _ h2).1, (hbody _ _ h2).2, ?_, ?_⟩)
    · rw [dispatchKeyFrame_room]
    · rw [scheduled_dispatchKeyFrame]
      simp [scheduled, Env.emit, List.filter_append]
  · refine Or.inr (Or.inr ⟨n, hn, s, h1, ?_⟩)
    intro s2 b hret
    rcases h2 with h2 | h2
    · rw [h2.1] at hret; simp at hret
    · rw [h2.1] at hret; simp at hret

/-! ## The coordinator, the ingress loop, the forwarder -/

theorem mem_mapSet {α : Type} (m : List (String × α)) (k : String) (v : α) (e : String × α)
    (h : e ∈ mapSet m k v) : e = (k, v) ∨ e ∈ m := by
  induction m with
  | nil => simp [mapSet] at h; exact Or.inl h
  | cons x rest ih =>
    obtain ⟨k', v'⟩ := x
    simp only [mapSet] at h
    by_cases hk : k' = k
    · simp only [hk, if_true, List.mem_cons] at h
      rcases h with h | h
      · exact Or.inl h
      · exact Or.inr (List.mem_cons_of_mem _ h)
    · simp only [hk, if_false, List.mem_cons] at h
      rcases h with h | h
      · exact Or.inr (by rw [h]; exact List.mem_cons_self _ _)
      · rcases ih h with h | h
        · exact Or.inl h
        · exact Or.inr (List.mem_cons_of_mem _ h)

theorem mapSet_ne_nil {α : Type} (m : List (String × α)) (k : String) (v : α) :
    mapSet m k v ≠ [] := by
  cases m with
  | nil => simp [mapSet]
  | cons x rest =>
    obtain ⟨k', v'⟩ := x
    simp only [mapSet]
    split <;> simp

theorem mapSet_mapSet {α : Type} (m : List (String × α)) (k : String) (v v' : α) :
    mapSet (mapSet m k v) k v' = mapSet m k v' := by
  induction m with
  | nil => simp [mapSet]
  | cons x rest ih =>
    obtain ⟨k', w⟩ := x
    by_cases hk : k' = k
    · simp [mapSet, hk]
    · simp [mapSet, hk, ih]

theorem mapGet_mapSet_self {α : Type} (m : List (String × α)) (k : String) (v : α) :
    mapGet (mapSet m k v) k = some v := by
  induction m with
  | nil => simp [mapSet, mapGet]
  | cons x rest ih =>
    obtain ⟨k', w⟩ := x
    by_cases hk : k' = k
    · simp [mapSet, mapGet, hk]
    · simp [mapSet, mapGet, hk, ih]

theorem mapGet_mapDelete_self {α : Type} (m : List (String × α)) (k : String) :
    mapGet (mapDelete m k) k = none := by
  induction m with
  | nil => rfl
  | cons x rest ih =>
    obtain ⟨k', w⟩ := x
    by_cases hk : k' = k
    · simpa [mapDelete, List.filter_cons, hk] using ih
    · have : mapDelete ((k', w) :: rest) k = (k', w) :: mapDelete rest k := by
        simp [mapDelete, List.filter_cons, hk]
      rw [this]
      simp [mapGet, hk, ih]

theorem mapGet_some_mem {α : Type} (m : List (String × α)) (k : String) (v : α)
    (h : mapGet m k = some v) : (k, v) ∈ m := by
  induction m with
  | nil => simp [mapGet] at h
  | cons x rest ih =>
    obtain ⟨k', w⟩ := x
    simp only [mapGet] at h
    by_cases hk : k' = k
    · simp only [hk, if_true, Option.some.injEq] at h
      rw [hk, h]; exact List.mem_cons_self _ _
    · simp only [hk, if_false] at h
      exact List.mem_cons_of_mem _ (ih h)

theorem mem_mapDelete {α : Type} (m : List (String × α)) (k : String) (e : String × α) :
    e ∈ mapDelete m k ↔ e ∈ m ∧ e.1 ≠ k := by
  simp [mapDelete, List.mem_filter]

theorem peers_ne_nil_of_keys (ps qs : List (String × Peer))
    (h : ps.map Prod.fst = qs.map Prod.fst) (hq : qs ≠ []) : ps ≠ [] := by
  intro hp
  rw [hp] at h
  cases qs with
  | nil => exact hq rfl
  | cons x rest => simp at h

/-- In every outcome `Signal` leaves the room with the peer ids it found. -/
theorem Signal_keys (room : Room) (env : Env) :
    (Signal room env).state.1.peers.map Prod.fst = room.peers.map Prod.fst := by
  unfold Signal SignalBody
  by_cases hl : room.lock = true
  · simp [hl, Outcome.state]
  · simp only [hl]
    have hI := signalLoop_inv (attemptSyncWith (fun r e => .blocked (r, e)))
      (fun r => r.lock = true ∧ r.peers.map Prod.fst = room.peers.map Prod.fst)
      (fun r e hr => by
        obtain ⟨ps, h1, h2⟩ := attemptSyncWith_locked (fun r e => .blocked (r, e)) r e hr.1
        rw [h1]
        exact ⟨hr.1, by rw [h2]; exact hr.2⟩)
      25 { room with lock := true } env ⟨rfl, rfl⟩
    cases hq : signalLoop (attemptSyncWith (fun r e => .blocked (r, e))) 25
        { room with lock := true } env with
    | returned s exit =>
      rw [hq] at hI
      have hd := dispatchKeyFrame_room { s.1 with lock := false } s.2
      simp only [Bool.false_eq_true, if_false]
      cases hk : dispatchKeyFrame { s.1 with lock := false } s.2 with
      | returned s' u => rw [hk] at hd; simp only [Outcome.state] at hd ⊢; rw [hd]; exact hI.2
      | blocked s' => rw [hk] at hd; simp only [Outcome.state] at hd ⊢; rw [hd]; exact hI.2
      | panicked s' => rw [hk] at hd; simp only [Outcome.state] at hd ⊢; rw [hd]; exact hI.2
    | blocked s => rw [hq] at hI; exact hI.2
    | panicked s =>
      rw [hq] at hI
      simp only [Bool.false_eq_true, if_false]
      show ((dispatchKeyFrame _ _).state).1.peers.map _ = _
      rw [dispatchKeyFrame_room]
      exact hI.2

theorem Signal_peers_ne_nil (room : Room) (env : Env) (h : room.peers ≠ []) :
    (Signal room env).state.1.peers ≠ [] :=
  peers_ne_nil_of_keys _ _ (Signal_keys room env) h

/-- In every outcome `Signal` leaves the track registry as it found it. -/
theorem Signal_tracks (room : Room) (env : Env) :
    (Signal room env).state.1.tracks = room.tracks := by
  unfold Signal SignalBody
  by_cases hl : room.lock = true
  · simp [hl, Outcome.state]
  · simp only [hl]
    have hI := signalLoop_inv (attemptSyncWith (fun r e => .blocked (r, e)))
      (fun r => r.lock = true ∧ r.tracks = room.tracks)
      (fun r e hr => by
        obtain ⟨ps, h1, _⟩ := attemptSyncWith_locked (fun r e => .blocked (r, e)) r e hr.1
        rw [h1]
        exact hr)
      25 { room with lock := true } env ⟨rfl, rfl⟩
    cases hq : signalLoop (attemptSyncWith (fun r e => .blocked (r, e))) 25
        { room with lock := true } env with
    | returned s exit =>
      rw [hq] at hI
      have hd := dispatchKeyFrame_room { s.1 with lock := false } s.2
      simp only [Bool.false_eq_true, if_false]
      cases hk : dispatchKeyFrame { s.1 with lock := false } s.2 with
      | returned s' u => rw [hk] at hd; simp only [Outcome.state] at hd ⊢; rw [hd]; exact hI.2
      | blocked s' => rw [hk] at hd; simp only [Outcome.state] at hd ⊢; rw [hd]; exact hI.2
      | panicked s' => rw [hk] at hd; simp only [Outcome.state] at hd ⊢; rw [hd]; exact hI.2
    | blocked s => rw [hq] at hI; exact hI.2
    | panicked s =>
      rw [hq] at hI
      simp only [Bool.false_eq_true, if_false]
      show ((dispatchKeyFrame _ _).state).1.tracks = _
      rw [dispatchKeyFrame_room]
      exact hI.2

theorem tracksWF_mapSet (tracks : List (String × TrackLocalStaticRTP)) (t : TrackRemote)
    (h : tracksWF tracks) : tracksWF (mapSet tracks t.id ⟨t.id, t.streamID⟩) := by
  intro e he
  rcases mem_mapSet _ _ _ _ he with h1 | h1
  · rw [h1]
  · exact h e h1

theorem tracksWF_mapDelete (tracks : List (String × TrackLocalStaticRTP)) (k : String)
    (h : tracksWF tracks) : tracksWF (mapDelete tracks k) :=
  fun e he => h e ((mem_mapDelete _ _ _).1 he).1

theorem AddTrack_tracksWF (room : Room) (t : TrackRemote) (env : Env)
    (h : tracksWF room.tracks) : tracksWF (AddTrack room t env).state.1.tracks := by
  unfold AddTrack
  split
  · exact h
  · dsimp only
    split
    · show tracksWF (Signal room env.call.2).state.1.tracks
      rw [Signal_tracks]; exact h
    · have := Signal_tracks
        { room with tracks := mapSet room.tracks t.id ⟨t.id, t.streamID⟩ } env.call.2
      have hw := tracksWF_mapSet room.tracks t h
      split <;> simp_all [Outcome.state]

theorem RemoveTrack_tracksWF (room : Room) (t : TrackLocalStaticRTP) (env : Env)
    (h : tracksWF room.tracks) : tracksWF (RemoveTrack room t env).state.1.tracks := by
  unfold RemoveTrack
  split
  · exact h
  · have := Signal_tracks { room with tracks := mapDelete room.tracks t.id } env
    have hw := tracksWF_mapDelete room.tracks t.id h
    split <;> simp_all [Outcome.state]

theorem setRoom_nonempty (c : Coordinator) (id : String) (room : Room)
    (hc : ∀ e ∈ c.rooms, e.2.peers ≠ []) (hr : room.peers ≠ []) :
    ∀ e ∈ (setRoom c id room).rooms, e.2.peers ≠ [] := by
  intro e he
  rcases mem_mapSet _ _ _ _ he with h | h
  · rw [h]; exact hr
  · exact hc e h

theorem AddTrack_peers_ne_nil (room : Room) (t : TrackRemote) (env : Env)
    (h : room.peers ≠ []) : (AddTrack room t env).state.1.peers ≠ [] := by
  unfold AddTrack
  split
  · exact h
  · dsimp only
    split
    · exact Signal_peers_ne_nil room _ h
    · have := Signal_peers_ne_nil
        { room with tracks := mapSet room.tracks t.id ⟨t.id, t.streamID⟩ } env.call.2 h
      split <;> simp_all [Outcome.state]

theorem RemoveTrack_peers_ne_nil (room : Room) (t : TrackLocalStaticRTP) (env : Env)
    (h : room.peers ≠ []) : (RemoveTrack room t env).state.1.peers ≠ [] := by
  unfold RemoveTrack
  split
  · exact h
  · have := Signal_peers_ne_nil { room with tracks := mapDelete room.tracks t.id } env h
    split <;> simp_all [Outcome.state]

theorem addUserToExistingRoom_state (c : Coordinator) (id peerId : String) (conn : Nat)
    (env : Env) (room : Room) (hget : mapGet c.rooms id = some room) :
    (room.lock = true ∧ (addUserToExistingRoom c id peerId conn env).state.1 = c) ∨
    ∃ roomX, roomX.peers ≠ [] ∧ roomX.tracks = room.tracks ∧
      (addUserToExistingRoom c id peerId conn env).state.1 = setRoom c id roomX := by
  unfold addUserToExistingRoom
  rw [hget]
  simp only
  unfold AddPeer
  by_cases hl : room.lock = true
  · simp only [hl, if_true]
    exact Or.inl ⟨trivial, rfl⟩
  · simp only [hl]
    right
    simp only [Bool.false_eq_true, if_false]
    cases hg : mapGet (mapSet room.peers (newPeer peerId).id (newPeer peerId)) peerId with
    | none => refine ⟨_, ?_, ?_, rfl⟩ <;> first | exact mapSet_ne_nil _ _ _ | rfl
    | some peer =>
      simp only
      split
      · refine ⟨_, ?_, ?_, rfl⟩ <;> first | exact mapSet_ne_nil _ _ _ | rfl
      · split
        · refine ⟨_, ?_, ?_, rfl⟩ <;> first | exact mapSet_ne_nil _ _ _ | rfl
        · split
          · refine ⟨_, ?_, ?_, rfl⟩ <;> first | exact mapSet_ne_nil _ _ _ | rfl
          · have hsig : ∀ (r : Room) (e : Env) (o : Outcome (Room × Env) SignalExit),
                r.peers ≠ [] → Signal r e = o →
                o.state.1.peers ≠ [] ∧ o.state.1.tracks = r.tracks := by
              intro r e o hr ho
              rw [← ho]; exact ⟨Signal_peers_ne_nil r e hr, Signal_tracks r e⟩
            split
            · next room4 env' _ heq =>
              have h4 := hsig _ _ _ (mapSet_ne_nil _ _ _) heq
              exact ⟨room4, h4.1, h4.2, rfl⟩
            · next room4 env' heq =>
              have h4 := hsig _ _ _ (mapSet_ne_nil _ _ _) heq
              exact ⟨room4, h4.1, h4.2, rfl⟩
            · next room4 env' heq =>
              have h4 := hsig _ _ _ (mapSet_ne_nil _ _ _) heq
              exact ⟨room4, h4.1, h4.2, rfl⟩

/-- What `AddUserToRoom` can leave behind: the coordinator it found, or that coordinator
with the room `id` replaced by a room that has a peer and whose registry is that of the
room found, or empty when the room was made. -/
theorem AddUserToRoom_state (c : Coordinator) (id peerId : String) (conn : Nat) (env : Env) :
    (AddUserToRoom c id peerId conn env).state.1 = c ∨
    ∃ room, room.peers ≠ [] ∧
      (room.tracks = [] ∨ ∃ room0, mapGet c.rooms id = some room0 ∧ room.tracks = room0.tracks) ∧
      (AddUserToRoom c id peerId conn env).state.1 = setRoom c id room := by
  unfold AddUserToRoom
  cases hget : mapGet c.rooms id with
  | some room =>
    simp only [Option.isSome_some, if_true]
    rcases addUserToExistingRoom_state c id peerId conn env room hget with h | h
    · exact Or.inl h.2
    · obtain ⟨roomX, h1, h2, h3⟩ := h
      exact Or.inr ⟨roomX, h1, Or.inr ⟨room, rfl, h2⟩, h3⟩
  | none =>
    simp only [Option.isSome_none, Bool.false_eq_true, if_false]
    have hnew : mapGet (CreateRoom c id env).1.rooms id = some (newRoom id env).1 :=
      mapGet_mapSet_self _ _ _
    rcases addUserToExistingRoom_state _ id peerId conn (CreateRoom c id env).2 _ hnew with h | h
    · simp [newRoom] at h
    · obtain ⟨roomX, h1, h2, h3⟩ := h
      exact Or.inr ⟨roomX, h1, Or.inl (by rw [h2]; rfl),
        by rw [h3]; simp [setRoom, CreateRoom, mapSet_mapSet]⟩

theorem AddUserToRoom_nonempty (c : Coordinator) (id peerId : String) (conn : Nat) (env : Env)
    (hc : ∀ e ∈ c.rooms, e.2.peers ≠ []) :
    ∀ e ∈ (AddUserToRoom c id peerId conn env).state.1.rooms, e.2.peers ≠ [] := by
  rcases AddUserToRoom_state c id peerId conn env with h | ⟨room, h1, _, h2⟩
  · rw [h]; exact hc
  · rw [h2]; exact setRoom_nonempty c id room hc h1

theorem RemoveUserFromRoom_nonempty (c : Coordinator) (id peerId : String)
    (hc : ∀ e ∈ c.rooms, e.2.peers ≠ []) :
    ∀ e ∈ (RemoveUserFromRoom c id peerId).rooms, e.2.peers ≠ [] := by
  unfold RemoveUserFromRoom
  cases hget : mapGet c.rooms id with
  | none => exact hc
  | some room =>
    simp only
    generalize (if (mapGet room.peers peerId).isSome = true then
      ({ room with peers := mapDelete room.peers peerId } : Room) else room) = room1
    by_cases hlen : room1.peers.length ≤ 0
    · simp only [hlen, if_true]
      intro e he
      exact hc e ((mem_mapDelete _ _ _).1 he).1
    · simp only [hlen, if_false]
      apply setRoom_nonempty c id _ hc
      intro h0
      apply hlen
      rw [h0]; simp

theorem reactOn_state (c : Coordinator) (roomId peerId : String) (payload : Any) (env : Env) :
    (reactOn c roomId peerId payload env).state.1 = c := by
  unfold reactOn
  split
  · dsimp only
    split
    · rfl
    · split
      · split
        · split <;> rfl
        · rfl
      · rfl
  · rfl

theorem HandleEvent_nonempty (c : Coordinator) (message : WsMessage) (conn : Nat) (env : Env)
    (hc : ∀ e ∈ c.rooms, e.2.peers ≠ []) :
    ∀ e ∈ (HandleEvent c message conn env).state.1.rooms, e.2.peers ≠ [] := by
  unfold HandleEvent
  split
  · split
    · split
      · split
        · exact AddUserToRoom_nonempty c _ _ conn env hc
        · split
          · exact RemoveUserFromRoom_nonempty c _ _ hc
          · split
            · rw [reactOn_state]; exact hc
            · split
              · rw [reactOn_state]; exact hc
              · exact hc
      · exact hc
    · exact hc
  · exact hc

theorem Reachable_nonempty (c : Coordinator) (h : Reachable c) :
    ∀ e ∈ c.rooms, e.2.peers ≠ [] := by
  induction h with
  | init => intro e he; simp [NewCoordinator] at he
  | event c message conn env _ ih => exact HandleEvent_nonempty c message conn env ih
  | signal c id room env _ hget ih =>
    exact setRoom_nonempty c id _ ih
      (Signal_peers_ne_nil room env (ih _ (mapGet_some_mem _ _ _ hget)))
  | addTrack c id room t env _ hget ih =>
    exact setRoom_nonempty c id _ ih
      (AddTrack_peers_ne_nil room t env (ih _ (mapGet_some_mem _ _ _ hget)))
  | removeTrack c id room t env _ hget ih =>
    exact setRoom_nonempty c id _ ih
      (RemoveTrack_peers_ne_nil room t env (ih _ (mapGet_some_mem _ _ _ hget)))
  | keyFrame c id room env _ hget ih =>
    refine setRoom_nonempty c id _ ih ?_
    rw [dispatchKeyFrame_room]
    exact ih _ (mapGet_some_mem _ _ _ hget)
  | transport c id room peerId peer pc pc' _ hget _ _ ih =>
    exact setRoom_nonempty c id _ ih (mapSet_ne_nil _ _ _)

theorem setRoom_tracksWF (c : Coordinator) (id : String) (room : Room)
    (hc : ∀ e ∈ c.rooms, tracksWF e.2.tracks) (hr : tracksWF room.tracks) :
    ∀ e ∈ (setRoom c id room).rooms, tracksWF e.2.tracks := by
  intro e he
  rcases mem_mapSet _ _ _ _ he with h | h
  · rw [h]; exact hr
  · exact hc e h

theorem RemoveUserFromRoom_tracksWF (c : Coordinator) (id peerId : String)
    (hc : ∀ e ∈ c.rooms, tracksWF e.2.tracks) :
    ∀ e ∈ (RemoveUserFromRoom c id peerId).rooms, tracksWF e.2.tracks := by
  unfold RemoveUserFromRoom
  cases hget : mapGet c.rooms id with
  | none => exact hc
  | some room =>
    simp only
    have hroom : tracksWF (if (mapGet room.peers peerId).isSome = true then
        ({ room with peers := mapDelete room.peers peerId } : Room) else room).tracks := by
      split <;> exact hc _ (mapGet_some_mem _ _ _ hget)
    revert hroom
    generalize (if (mapGet room.peers peerId).isSome = true then
      ({ room with peers := mapDelete room.peers peerId } : Room) else room) = room1
    intro hroom
    by_cases hlen : room1.peers.length ≤ 0
    · simp only [hlen, if_true]
      intro e he
      exact hc e ((mem_mapDelete _ _ _).1 he).1
    · simp only [hlen, if_false]
      exact setRoom_tracksWF c id _ hc hroom

theorem HandleEvent_tracksWF (c : Coordinator) (message : WsMessage) (conn : Nat) (env : Env)
    (hc : ∀ e ∈ c.rooms, tracksWF e.2.tracks) :
    ∀ e ∈ (HandleEvent c message conn env).state.1.rooms, tracksWF e.2.tracks := by
  unfold HandleEvent
  split
  · split
    · split
      · split
        · next roomId _ =>
          rcases AddUserToRoom_state c _ _ conn env with h | ⟨room, _, h1, h2⟩
          · rw [h]; exact hc
          · rw [h2]
            apply setRoom_tracksWF c _ room hc
            rcases h1 with h1 | ⟨room0, hg, h1⟩
            · rw [h1]; intro e he; simp at he
            · rw [h1]; exact hc _ (mapGet_some_mem _ _ _ hg)
        · split
          · exact RemoveUserFromRoom_tracksWF c _ _ hc
          · split
            · rw [reactOn_state]; exact hc
            · split
              · rw [reactOn_state]; exact hc
              · exact hc
      · exact hc
    · exact hc
  · exact hc

/-- Every room of a reachable coordinator stores each local track under the track's own id,
as `Room.AddTrack`, the only writer of the registry, puts it there. -/
theorem Reachable_tracksWF (c : Coordinator) (h : Reachable c) :
    ∀ e ∈ c.rooms, tracksWF e.2.tracks := by
  induction h with
  | init => intro e he; simp [NewCoordinator] at he
  | event c message conn env _ ih => exact HandleEvent_tracksWF c message conn env ih
  | signal c id room env _ hget ih =>
    refine setRoom_tracksWF c id _ ih ?_
    rw [Signal_tracks]; exact ih _ (mapGet_some_mem _ _ _ hget)
  | addTrack c id room t env _ hget ih =>
    exact setRoom_tracksWF c id _ ih
      (AddTrack_tracksWF room t env (ih _ (mapGet_some_mem _ _ _ hget)))
  | removeTrack c id room t env _ hget ih =>
    exact setRoom_tracksWF c id _ ih
      (RemoveTrack_tracksWF room t env (ih _ (mapGet_some_mem _ _ _ hget)))
  | keyFrame c id room env _ hget ih =>
    refine setRoom_tracksWF c id _ ih ?_
    rw [dispatchKeyFrame_room]
    exact ih _ (mapGet_some_mem _ _ _ hget)
  | transport c id room peerId peer pc pc' _ hget _ _ ih =>
    exact setRoom_tracksWF c id _ ih (ih _ (mapGet_some_mem _ _ _ hget))

theorem leaveAll_absent (id : String) :
    ∀ (ps : List String) (c : Coordinator), (∀ e ∈ c.rooms, e.2.peers ≠ []) →
      (∀ room, mapGet c.rooms id = some room → ∀ k ∈ room.peers.map Prod.fst, k ∈ ps) →
      mapGet (leaveAll c id ps).rooms id = none := by
  intro ps
  induction ps with
  | nil =>
    intro c hc hall
    simp only [leaveAll, List.foldl_nil]
    cases hget : mapGet c.rooms id with
    | none => rfl
    | some room =>
      exfalso
      apply hc _ (mapGet_some_mem _ _ _ hget)
      have := hall room hget
      cases hp : room.peers with
      | nil => rfl
      | cons x rest => rw [hp] at this; simpa using this x.1
  | cons p ps ih =>
    intro c hc hall
    simp only [leaveAll, List.foldl_cons]
    apply ih (RemoveUserFromRoom c id p) (RemoveUserFromRoom_nonempty c id p hc)
    intro room' hget' k hk
    unfold RemoveUserFromRoom at hget'
    cases hget : mapGet c.rooms id with
    | none => rw [hget] at hget'; simp only at hget'; rw [hget] at hget'; simp at hget'
    | some room =>
      rw [hget] at hget'
      simp only at hget'
      have hsub := hall room hget
      by_cases hpres : (mapGet room.peers p).isSome = true
      · simp only [hpres, if_true] at hget'
        by_cases hlen : (mapDelete room.peers p).length ≤ 0
        · simp only [hlen, if_true, RemoveRoom, mapGet_mapDelete_self] at hget'
          simp at hget'
        · simp only [hlen, if_false, setRoom, mapGet_mapSet_self, Option.some.injEq] at hget'
          rw [← hget'] at hk
          obtain ⟨e, he, rfl⟩ := List.mem_map.1 hk
          obtain ⟨he1, he2⟩ := (mem_mapDelete _ _ _).1 he
          rcases List.mem_cons.1 (hsub e.1 (List.mem_map.2 ⟨e, he1, rfl⟩)) with h | h
          · exact absurd h he2
          · exact h
      · have hp' : (mapGet room.peers p).isSome = false := by simpa using hpres
        simp only [hp', Bool.false_eq_true, if_false] at hget'
        by_cases hlen : room.peers.length ≤ 0
        · simp only [hlen, if_true, RemoveRoom, mapGet_mapDelete_self] at hget'
          simp at hget'
        · simp only [hlen, if_false, setRoom, mapGet_mapSet_self, Option.some.injEq] at hget'
          rw [← hget'] at hk
          rcases List.mem_cons.1 (hsub k hk) with h | h
          · exfalso
            apply hpres
            rw [mapGet_isSome_iff, ← h]; exact hk
          · exact h

theorem forwardLoop_written :
    ∀ (arrivals : List Arrival) (env : Env),
      (forwardLoop arrivals env).1 =
        (match writesUntilError env.oracle with
          | some n => (leadingPackets arrivals).take n
          | none => leadingPackets arrivals).map clearExtensions := by
  intro arrivals
  induction arrivals with
  | nil => intro env; cases writesUntilError env.oracle <;> simp [forwardLoop, leadingPackets]
  | cons a rest ih =>
    intro env
    cases a with
    | readError => cases writesUntilError env.oracle <;> simp [forwardLoop, leadingPackets]
    | parseError => cases writesUntilError env.oracle <;> simp [forwardLoop, leadingPackets]
    | packet p =>
      obtain ⟨oracle, effects⟩ := env
      cases oracle with
      | nil =>
        have := ih ⟨[], effects⟩
        simp only [writesUntilError] at this
        simp [forwardLoop, Env.call, leadingPackets, writesUntilError, this]
      | cons b o =>
        cases b with
        | true => simp [forwardLoop, Env.call, leadingPackets, writesUntilError]
        | false =>
          have := ih ⟨o, effects⟩
          simp only at this
          cases hw : writesUntilError o with
          | none =>
            rw [hw] at this
            simp [forwardLoop, Env.call, leadingPackets, writesUntilError, hw, this]
          | some n =>
            rw [hw] at this
            simp [forwardLoop, Env.call, leadingPackets, writesUntilError, hw, this]

/-- The body of `RemovePeer`, were it ever run on a free lock: the peer is deleted and the
room stays, with no peer when it was the last one.  `RemovePeer` has one caller, the pass
of `Signal`, which holds the lock (`RemovePeerWith_locked`). -/
theorem RemovePeer_unlocked_last_peer (id pid : String) (ws : Option Nat) (pc : PeerConnection)
    (tracks : List (String × TrackLocalStaticRTP)) (env : Env) :
    (RemovePeer ⟨id, [(pid, ⟨pid, ws, some pc⟩)], tracks, false⟩ pid env).state.1.peers = [] := by
  have hk := Signal_keys ⟨id, [], tracks, false⟩ (env.emit (.closeTransport pid))
  have hnil : (Signal ⟨id, [], tracks, false⟩ (env.emit (.closeTransport pid))).state.1.peers
      = [] := by simpa using hk
  simp only [RemovePeer, RemovePeerWith, mapGet, mapDelete, Bool.false_eq_true, if_false,
    if_true, List.filter, decide_True, Bool.not_true]
  cases hs : Signal ⟨id, [], tracks, false⟩ (env.emit (.closeTransport pid)) with
  | returned s x => rw [hs] at hnil; exact hnil
  | blocked s => rw [hs] at hnil; exact hnil
  | panicked s => rw [hs] at hnil; exact hnil

/-- A well-formed `leave` message is handled by `RemoveUserFromRoom` and nothing else. -/
theorem HandleEvent_leave (c : Coordinator) (peerId roomId : String) (conn : Nat) (env : Env) :
    HandleEvent c ⟨"leave", memberData peerId roomId⟩ conn env =
      .returned (RemoveUserFromRoom c roomId peerId, env) () := by
  have h1 : ("leave" = "join") = False := by decide
  simp [HandleEvent, memberData, AnyMap.index, h1]

/-- C6 (no empty room): in every coordinator state reachable from `NewCoordinator()` by
control events, runs of `Signal`, track changes, keyframe ticks and transport changes,
every room in `coordinator.rooms` has at least one peer; and once `leave` events have been
handled for all the peers present in a room, the room id is absent. -/
theorem Reachable_no_empty_room (c : Coordinator) (h : Reachable c) :
    (∀ e ∈ c.rooms, e.2.peers ≠ []) ∧
    ∀ (id : String) (ps : List String), (∀ k ∈ peerIDs c id, k ∈ ps) →
      mapGet (leaveAll c id ps).rooms id = none := by
  have hne := Reachable_nonempty c h
  refine ⟨hne, ?_⟩
  intro id ps hall
  apply leaveAll_absent id ps c hne
  intro room hget k hk
  apply hall
  simp only [peerIDs, hget]
  exact hk

/-- Witness for C6: peers `a` and `b` join room `r1`, then both leave. -/
theorem Reachable_no_empty_room_witness :
    Reachable twoJoined ∧ peerIDs twoJoined "r1" = ["a", "b"] ∧
    (∀ e ∈ twoJoined.rooms, e.2.peers ≠ []) ∧
    mapGet (leaveAll twoJoined "r1" ["b", "a"]).rooms "r1" = none :=
  ⟨Reachable.event _ _ _ _ (Reachable.event _ _ _ _ Reachable.init), by decide,
   (Reachable_no_empty_room twoJoined
      (Reachable.event _ _ _ _ (Reachable.event _ _ _ _ Reachable.init))).1,
   (Reachable_no_empty_room twoJoined
      (Reachable.event _ _ _ _ (Reachable.event _ _ _ _ Reachable.init))).2 "r1" ["b", "a"]
      (by decide)⟩

/-- C9 (the forwarder strips extensions and nothing else): the packets handed to
`WriteRTP` are the packets that arrived before the first read or parse error, in arrival
order, cut after the first `WriteRTP` that fails, each with extension flag false and no
extensions and with every other header field, the payload and the padding size as they
arrived. -/
theorem forwardLoop_strips (arrivals : List Arrival) (env : Env) :
    (forwardLoop arrivals env).1 =
      (match writesUntilError env.oracle with
        | some n => (leadingPackets arrivals).take n
        | none => leadingPackets arrivals).map clearExtensions ∧
    ∀ p : Packet,
      (clearExtensions p).header.extension = false ∧
      (clearExtensions p).header.extensions = [] ∧
      (clearExtensions p).header.sequenceNumber = p.header.sequenceNumber ∧
      (clearExtensions p).header.timestamp = p.header.timestamp ∧
      (clearExtensions p).header.ssrc = p.header.ssrc ∧
      (clearExtensions p).header.payloadType = p.header.payloadType ∧
      (clearExtensions p).header.marker = p.header.marker ∧
      (clearExtensions p).header.version = p.header.version ∧
      (clearExtensions p).header.padding = p.header.padding ∧
      (clearExtensions p).header.csrc = p.header.csrc ∧
      (clearExtensions p).header.extensionProfile = p.header.extensionProfile ∧
      (clearExtensions p).payload = p.payload ∧
      (clearExtensions p).paddingSize = p.paddingSize :=
  ⟨forwardLoop_written arrivals env, fun _ => ⟨rfl, rfl, rfl, rfl, rfl, rfl, rfl, rfl, rfl, rfl,
    rfl, rfl, rfl⟩⟩

/-- C4, evaluated on the code: a message whose `data` is a map in which `peerId` or
`roomId` is not a string makes `HandleEvent` panic at the type assertion, before any
dispatch; the panic unwinds `websocketHandler`, whose deferred `c.Close()` closes the
connection, and no later frame of the connection is read. -/
theorem HandleEvent_malformed_panics (c : Coordinator) (type : String) (data : AnyMap)
    (conn : Nat) (env : Env) (later : List Incoming)
    (h : (∀ s, data.index "peerId" ≠ .string s) ∨ (∀ s, data.index "roomId" ≠ .string s)) :
    HandleEvent c ⟨type, .map data⟩ conn env = .panicked (c, env) ∧
    websocketHandler c conn
        (.object [("type", .string type), ("data", .map data)] :: later) env =
      { coordinator := c, env := env.emit (.closeConn conn),
        handled := [⟨type, .map data⟩], session := .closedByPanic } := by
  have hp : HandleEvent c ⟨type, .map data⟩ conn env = .panicked (c, env) := by
    unfold HandleEvent
    simp only
    rcases h with h | h
    · split
      · next s hs => exact absurd hs (h s)
      · rfl
    · split
      · split
        · next s hs => exact absurd hs (h s)
        · rfl
      · rfl
  refine ⟨hp, ?_⟩
  have hu : Unmarshal (.object [("type", .string type), ("data", .map data)]) WsMessage.zero =
      some ⟨type, .map data⟩ := by
    have h1 : keyMatches "type" "type" = true := by decide
    have h2 : keyMatches "data" "type" = false := by decide
    have h3 : keyMatches "data" "data" = true := by decide
    simp [Unmarshal, unmarshalMembers, unmarshalMember, h1, h2, h3, WsMessage.zero]
  simp [websocketHandler, websocketLoop, hu, hp]

/-- Scenario 6 of the spec on the code: the malformed `join` panics, the connection is
closed, and the well-formed `join` that follows is not processed: the room is not made. -/
theorem HandleEvent_malformed_panics_witness :
    websocketHandler NewCoordinator 7 [malformedJoinFrame, joinFrame "a" "r1"] env0 =
      { coordinator := NewCoordinator, env := ⟨[], [.closeConn 7]⟩,
        handled := [⟨"join", .map (.cons "peerId" (.float64 42) .nil)⟩],
        session := .closedByPanic } :=
  (HandleEvent_malformed_panics NewCoordinator "join" (.cons "peerId" (.float64 42) .nil) 7
    env0 [joinFrame "a" "r1"] (Or.inl (by
      intro s hs
      rw [show (AnyMap.cons "peerId" (Any.float64 42) AnyMap.nil).index "peerId" = Any.float64 42
        from by decide] at hs
      cases hs))).2

/-- C7, evaluated on the code: in the converged three-peer room, `leave` for peer `c`
removes `c` from `room.peers` and does nothing else (no transport is closed, no offer is
sent): `c`'s track `tc` is still in `room.tracks`, peers `a` and `b` still have a sender
bound to `tc`, and a further `Signal` leaves it so. -/
theorem leave_keeps_tracks :
    (HandleEvent threeJoined ⟨"leave", memberData "c" "r1"⟩ 3 env0).state.2 = env0 ∧
    (HandleEvent threeJoined ⟨"leave", memberData "c" "r1"⟩ 3 env0).state.1.rooms.map
        (fun r => (r.2.peers.map (fun e => (e.1, boundSenderIDs e.2)),
                   r.2.tracks.map Prod.fst)) =
      [([("a", ["tb", "tc"]), ("b", ["ta", "tc"])], ["ta", "tb", "tc"])] ∧
    ((HandleEvent threeJoined ⟨"leave", memberData "c" "r1"⟩ 3 env0).state.1.rooms.map
        (fun r => (Signal r.2 env0).state.1.peers.map (fun e => (e.1, boundSenderIDs e.2)))) =
      [[("a", ["tb", "tc"]), ("b", ["ta", "tc"])]] := by
  refine ⟨by decide, by decide, by decide⟩

/-- C10, evaluated on the code: `websocketHandler` decodes every frame into the one
`WsMessage` it made before the loop.  After a `join` of peer `a` to room `r1`, the frame
that names only the type `leave` is handed to `HandleEvent` with the `data` of the `join`,
where decoding into a fresh message gives no data; peer `a` is removed and the room
destroyed. -/
theorem websocketHandler_reuses_message :
    Unmarshal bareLeaveFrame WsMessage.zero = some ⟨"leave", .nil⟩ ∧
    (websocketHandler NewCoordinator 1 [joinFrame "a" "r1"] env0).coordinator.rooms.map
        (fun r => (r.1, r.2.peers.map Prod.fst)) = [("r1", ["a"])] ∧
    (websocketHandler NewCoordinator 1 [joinFrame "a" "r1", bareLeaveFrame] env0).handled =
      [⟨"join", memberData "a" "r1"⟩, ⟨"leave", memberData "a" "r1"⟩] ∧
    (websocketHandler NewCoordinator 1 [joinFrame "a" "r1", bareLeaveFrame] env0).coordinator =
      NewCoordinator := by
  refine ⟨by decide, by decide, by decide, by decide⟩

end SynestSfu
